import Mathlib

set_option maxHeartbeats 1000000

/-!
Verification development for the Roxane OS context & memory cache hierarchy
(`src/core/nlp/context_manager.py`, `src/core/cache/redis_manager.py`,
`src/core/memory/memory.py`, `src/core/database/manager.py`,
`src/core/database/models.py`).

The Python code is shallowly embedded: each manager becomes a pure state
transformer over explicit state records; Python `datetime` values are
modelled as natural numbers (an instant on a discrete clock), with
ISO-8601 rendering modelled as the decimal rendering of that number (both
are injective encodings with an exact partial inverse, which is the only
property the source relies on); Python dictionaries flowing through JSON
are modelled by a JSON value type; code that may raise returns `Except`.
-/

namespace RoxaneOS

/-! ## Decimal digit codec

Models Python's rendering of a non-negative integer (`str(n)`,
`json.dumps(n)`, and the digit run of an ISO timestamp) together with the
digit-run scanner that `json.loads` / `datetime.fromisoformat` use to read
it back. -/

/-- The character for a single decimal digit `d < 10`. -/
def digitChar (d : Nat) : Char := Char.ofNat (48 + d)

/-- Decimal digits of `n`, most significant first (Python `str(n)` for `n ≥ 0`). -/
def natDigits (n : Nat) : List Char :=
  if _h : n < 10 then [digitChar n]
  else natDigits (n / 10) ++ [digitChar (n % 10)]
  termination_by n
  decreasing_by exact Nat.div_lt_self (by omega) (by omega)

/-- Numeric value of a digit character. -/
def digitVal (c : Char) : Nat := c.toNat - 48

/-- `p` rejects the head of the list (vacuously true for `[]`); used to state
maximal-munch parses. -/
def headNot (p : α → Bool) : List α → Prop
  | [] => True
  | x :: _ => p x = false

/-- Read a maximal nonempty run of decimal digits and return its value and the
unconsumed remainder. -/
def readNat (s : List Char) : Option (Nat × List Char) :=
  let ds := s.takeWhile Char.isDigit
  if ds.isEmpty then none
  else some (ds.foldl (fun a c => a * 10 + digitVal c) 0, s.dropWhile Char.isDigit)

theorem toNat_digitChar {d : Nat} (h : d < 10) : (digitChar d).toNat = 48 + d := by
  interval_cases d <;> decide

theorem isDigit_digitChar {d : Nat} (h : d < 10) : (digitChar d).isDigit = true := by
  interval_cases d <;> decide

theorem digitVal_digitChar {d : Nat} (h : d < 10) : digitVal (digitChar d) = d := by
  interval_cases d <;> decide

theorem natDigits_ne_nil (n : Nat) : natDigits n ≠ [] := by
  rw [natDigits]
  split <;> simp

theorem natDigits_all_digits (n : Nat) : ∀ c ∈ natDigits n, c.isDigit = true := by
  induction n using Nat.strong_induction_on with
  | _ n ih =>
    rw [natDigits]
    split
    next h =>
      intro c hc
      simp only [List.mem_singleton] at hc
      subst hc; exact isDigit_digitChar h
    next h =>
      intro c hc
      rcases List.mem_append.mp hc with h1 | h2
      · exact ih (n / 10) (Nat.div_lt_self (by omega) (by omega)) c h1
      · simp only [List.mem_singleton] at h2
        subst h2; exact isDigit_digitChar (Nat.mod_lt _ (by omega))

theorem natDigits_foldl (n : Nat) :
    ∀ a : Nat, (natDigits n).foldl (fun a c => a * 10 + digitVal c) a =
      a * 10 ^ (natDigits n).length + n := by
  induction n using Nat.strong_induction_on with
  | _ n ih =>
    intro a
    rw [natDigits]
    split
    next h => simp [digitVal_digitChar h]
    next h =>
      rw [List.foldl_append, ih (n / 10) (Nat.div_lt_self (by omega) (by omega)) a]
      simp only [List.foldl_cons, List.foldl_nil, List.length_append,
        List.length_singleton]
      rw [digitVal_digitChar (Nat.mod_lt _ (by omega))]
      rw [pow_succ]
      have := Nat.div_add_mod n 10
      ring_nf
      omega

/-- A list of elements all satisfying `p`, followed by a list whose head fails
`p`, splits back apart under `takeWhile`. -/
theorem takeWhile_append_all {p : α → Bool} {xs ys : List α}
    (hx : ∀ x ∈ xs, p x = true) (hy : headNot p ys) :
    (xs ++ ys).takeWhile p = xs ∧ (xs ++ ys).dropWhile p = ys := by
  induction xs with
  | nil =>
    simp only [List.nil_append]
    cases ys with
    | nil => simp
    | cons y ys => simp_all [List.takeWhile, List.dropWhile, headNot]
  | cons x xs ihx =>
    have hpx : p x = true := hx x (by simp)
    have := ihx (fun a ha => hx a (by simp [ha]))
    simp_all [List.takeWhile, List.dropWhile]

/-- Reading back the decimal rendering of `n` recovers `n` and leaves any
non-digit-headed remainder untouched. -/
theorem readNat_natDigits (n : Nat) (rest : List Char) (hrest : headNot Char.isDigit rest) :
    readNat (natDigits n ++ rest) = some (n, rest) := by
  obtain ⟨htake, hdrop⟩ := takeWhile_append_all (natDigits_all_digits n) hrest
  unfold readNat
  simp only [htake, hdrop]
  have hne := natDigits_ne_nil n
  rw [if_neg (by simpa [List.isEmpty_iff] using hne)]
  rw [natDigits_foldl n 0]
  simp

/-! ## JSON values

Models the Python values that cross the cache boundary (`json.dumps` /
`json.loads` in `redis_manager.py` and `context_manager.py`). Numbers are
modelled as integers (floating point is out of scope), object keys as
strings, and strings as lists of characters. -/

mutual

/-- A JSON-safe Python value: `None`, `bool`, `int`, `str`, `list`, `dict`. -/
inductive Jv where
  | null : Jv
  | bool (b : Bool) : Jv
  | num (n : Int) : Jv
  | str (s : List Char) : Jv
  | arr (items : JArr) : Jv
  | obj (fields : JObj) : Jv
  deriving DecidableEq

/-- A Python list of JSON-safe values. -/
inductive JArr where
  | nil : JArr
  | cons (hd : Jv) (tl : JArr) : JArr
  deriving DecidableEq

/-- A Python dict with string keys and JSON-safe values (in insertion order). -/
inductive JObj where
  | nil : JObj
  | cons (key : List Char) (val : Jv) (tl : JObj) : JObj
  deriving DecidableEq

end

/-- Hexadecimal digit character (lowercase, as emitted by `json.dumps`). -/
def hexDigit (d : Nat) : Char :=
  if d < 10 then digitChar d else Char.ofNat (87 + d)

/-- Value of a hexadecimal digit character, if it is one. -/
def hexVal (c : Char) : Option Nat :=
  if 48 ≤ c.toNat ∧ c.toNat ≤ 57 then some (c.toNat - 48)
  else if 97 ≤ c.toNat ∧ c.toNat ≤ 102 then some (c.toNat - 87)
  else if 65 ≤ c.toNat ∧ c.toNat ≤ 70 then some (c.toNat - 55)
  else none

/-- JSON string escaping of one character, following `json.dumps`: quote and
backslash get a backslash escape, the named control characters get their
short forms, other control characters get a `\u00XX` escape, and everything
else passes through. -/
def escChar (c : Char) : List Char :=
  if c = '"' then ['\\', '"']
  else if c = '\\' then ['\\', '\\']
  else if c = '\n' then ['\\', 'n']
  else if c = '\r' then ['\\', 'r']
  else if c = '\t' then ['\\', 't']
  else if c.toNat = 8 then ['\\', 'b']
  else if c.toNat = 12 then ['\\', 'f']
  else if c.toNat < 32 then
    ['\\', 'u', '0', '0', hexDigit (c.toNat / 16), hexDigit (c.toNat % 16)]
  else [c]

/-- JSON string escaping of a whole string body. -/
def escStr : List Char → List Char
  | [] => []
  | c :: r => escChar c ++ escStr r

/-- Characters of the decimal rendering of an integer (Python `str(i)` /
`json.dumps(i)`). -/
def intChars (i : Int) : List Char :=
  if i < 0 then '-' :: natDigits i.natAbs else natDigits i.natAbs

mutual

/-- Characters of `json.dumps(v)` with the default separators
(`", "` between items, `": "` after keys). -/
def printJv : Jv → List Char
  | .null => 'n' :: ['u', 'l', 'l']
  | .bool true => 't' :: ['r', 'u', 'e']
  | .bool false => 'f' :: ['a', 'l', 's', 'e']
  | .num i => intChars i
  | .str s => '"' :: (escStr s ++ ['"'])
  | .arr .nil => ['[', ']']
  | .arr (.cons h t) => '[' :: (printJv h ++ (printArrTail t ++ [']']))
  | .obj .nil => ['\x7b', '\x7d']
  | .obj (.cons k v t) =>
      '\x7b' :: ('"' :: (escStr k ++ (['"', ':', ' '] ++
        (printJv v ++ (printObjTail t ++ ['\x7d'])))))

/-- Rendering of the remaining array items, each preceded by `", "`. -/
def printArrTail : JArr → List Char
  | .nil => []
  | .cons h t => ',' :: ' ' :: (printJv h ++ printArrTail t)

/-- Rendering of the remaining object entries, each preceded by `", "`. -/
def printObjTail : JObj → List Char
  | .nil => []
  | .cons k v t =>
      ',' :: ' ' :: '"' :: (escStr k ++ (['"', ':', ' '] ++ (printJv v ++ printObjTail t)))

end

/-- JSON insignificant whitespace. -/
def isWs (c : Char) : Bool := c = ' ' || c = '\t' || c = '\n' || c = '\r'

/-- Skip insignificant whitespace (as `json.loads` does between tokens). -/
def skipWs (s : List Char) : List Char := s.dropWhile isWs

/-- `true` when the list starts with the character `c`. -/
def headIs (c : Char) (s : List Char) : Bool :=
  match s with
  | [] => false
  | x :: _ => x == c

/-- Strip an expected literal prefix, returning the remainder. -/
def stripTok : List Char → List Char → Option (List Char)
  | [], s => some s
  | t :: ts, s =>
    match s with
    | [] => none
    | c :: cs => if c = t then stripTok ts cs else none

/-- Parse a JSON string body (everything after the opening quote), undoing
the escapes of `escChar`, up to the closing quote. -/
def parseStrBody (s : List Char) : Option (List Char × List Char) :=
  match s with
  | [] => none
  | c :: r =>
    if c = '"' then some ([], r)
    else if c = '\\' then
      match r with
      | [] => none
      | e :: r2 =>
        if e = '"' then (parseStrBody r2).map (fun p => ('"' :: p.1, p.2))
        else if e = '\\' then (parseStrBody r2).map (fun p => ('\\' :: p.1, p.2))
        else if e = '/' then (parseStrBody r2).map (fun p => ('/' :: p.1, p.2))
        else if e = 'n' then (parseStrBody r2).map (fun p => ('\n' :: p.1, p.2))
        else if e = 'r' then (parseStrBody r2).map (fun p => ('\r' :: p.1, p.2))
        else if e = 't' then (parseStrBody r2).map (fun p => ('\t' :: p.1, p.2))
        else if e = 'b' then (parseStrBody r2).map (fun p => (Char.ofNat 8 :: p.1, p.2))
        else if e = 'f' then (parseStrBody r2).map (fun p => (Char.ofNat 12 :: p.1, p.2))
        else if e = 'u' then
          match r2 with
          | h1 :: h2 :: h3 :: h4 :: r3 =>
            match hexVal h1, hexVal h2, hexVal h3, hexVal h4 with
            | some a, some b, some c', some d =>
              (parseStrBody r3).map
                (fun p => (Char.ofNat (a * 4096 + b * 256 + c' * 16 + d) :: p.1, p.2))
            | _, _, _, _ => none
          | _ => none
        else none
    else (parseStrBody r).map (fun p => (c :: p.1, p.2))
  termination_by s.length
  decreasing_by all_goals simp_arith [*]

mutual

/-- Parse one JSON value, dispatching on the first character as the CPython
scanner does. The fuel bounds nesting depth; `jloads` supplies enough. -/
def parseJv : Nat → List Char → Option (Jv × List Char)
  | 0, _ => none
  | fuel + 1, s =>
    if headIs 'n' s then (stripTok ['n', 'u', 'l', 'l'] s).map (fun r => (.null, r))
    else if headIs 't' s then (stripTok ['t', 'r', 'u', 'e'] s).map (fun r => (.bool true, r))
    else if headIs 'f' s then
      (stripTok ['f', 'a', 'l', 's', 'e'] s).map (fun r => (.bool false, r))
    else if headIs '"' s then (parseStrBody s.tail).map (fun p => (.str p.1, p.2))
    else if headIs '[' s then
      (parseArrItems fuel (skipWs s.tail)).map (fun p => (.arr p.1, p.2))
    else if headIs '\x7b' s then
      (parseObjItems fuel (skipWs s.tail)).map (fun p => (.obj p.1, p.2))
    else if headIs '-' s then
      (readNat s.tail).map (fun p => (.num (-(p.1 : Int)), p.2))
    else (readNat s).map (fun p => (.num (p.1 : Int), p.2))
  termination_by fuel _ => (fuel, 0)

/-- Parse the items of an array, positioned just inside the opening bracket
(leading whitespace already skipped). -/
def parseArrItems : Nat → List Char → Option (JArr × List Char)
  | 0, _ => none
  | fuel + 1, s =>
    if headIs ']' s then some (.nil, s.tail)
    else
      (parseJv (fuel + 1) s).bind fun p =>
        (parseArrRest fuel (skipWs p.2)).map fun q => (.cons p.1 q.1, q.2)
  termination_by fuel _ => (fuel, 1)

/-- Parse the remainder of an array after one item: either the closing
bracket or a comma and further items. -/
def parseArrRest : Nat → List Char → Option (JArr × List Char)
  | 0, _ => none
  | fuel + 1, s =>
    if headIs ']' s then some (.nil, s.tail)
    else if headIs ',' s then
      (parseJv (fuel + 1) (skipWs s.tail)).bind fun p =>
        (parseArrRest fuel (skipWs p.2)).map fun q => (.cons p.1 q.1, q.2)
    else none
  termination_by fuel _ => (fuel, 1)

/-- Parse the entries of an object, positioned just inside the opening brace
(leading whitespace already skipped). -/
def parseObjItems : Nat → List Char → Option (JObj × List Char)
  | 0, _ => none
  | fuel + 1, s =>
    if headIs '\x7d' s then some (.nil, s.tail)
    else if headIs '"' s then
      (parseStrBody s.tail).bind fun kp =>
        let s2 := skipWs kp.2
        if headIs ':' s2 then
          (parseJv (fuel + 1) (skipWs s2.tail)).bind fun p =>
            (parseObjRest fuel (skipWs p.2)).map fun q => (.cons kp.1 p.1 q.1, q.2)
        else none
    else none
  termination_by fuel _ => (fuel, 1)

/-- Parse the remainder of an object after one entry: either the closing
brace or a comma and further entries. -/
def parseObjRest : Nat → List Char → Option (JObj × List Char)
  | 0, _ => none
  | fuel + 1, s =>
    if headIs '\x7d' s then some (.nil, s.tail)
    else if headIs ',' s then
      let s1 := skipWs s.tail
      if headIs '"' s1 then
        (parseStrBody s1.tail).bind fun kp =>
          let s2 := skipWs kp.2
          if headIs ':' s2 then
            (parseJv (fuel + 1) (skipWs s2.tail)).bind fun p =>
              (parseObjRest fuel (skipWs p.2)).map fun q => (.cons kp.1 p.1 q.1, q.2)
          else none
      else none
    else none
  termination_by fuel _ => (fuel, 1)

end

/-- `json.dumps` on a JSON-safe value, as a string. -/
def jdumps (v : Jv) : String := String.mk (printJv v)

/-- `json.loads`: skip surrounding whitespace, parse one value, require the
input to be fully consumed; `none` models a raised `JSONDecodeError`. -/
def jloads (s : String) : Option Jv :=
  match parseJv (s.data.length + 1) (skipWs s.data) with
  | some (v, rest) => if skipWs rest = [] then some v else none
  | none => none

mutual

/-- Node count of a JSON value; a fuel bound sufficient for `parseJv`. -/
def sizeJv : Jv → Nat
  | .null => 1
  | .bool _ => 1
  | .num _ => 1
  | .str _ => 1
  | .arr items => sizeArr items + 1
  | .obj fields => sizeObj fields + 1

/-- Fuel bound sufficient for `parseArrItems` / `parseArrRest`. -/
def sizeArr : JArr → Nat
  | .nil => 1
  | .cons h t => sizeJv h + sizeArr t

/-- Fuel bound sufficient for `parseObjItems` / `parseObjRest`. -/
def sizeObj : JObj → Nat
  | .nil => 1
  | .cons _ v t => sizeJv v + sizeObj t

end

theorem sizeJv_pos (v : Jv) : 1 ≤ sizeJv v := by
  cases v <;> simp [sizeJv]

theorem sizeArr_pos (t : JArr) : 1 ≤ sizeArr t := by
  cases t with
  | nil => simp [sizeArr]
  | cons h t' => have := sizeJv_pos h; simp [sizeArr]; omega

theorem sizeObj_pos (t : JObj) : 1 ≤ sizeObj t := by
  cases t with
  | nil => simp [sizeObj]
  | cons k v t' => have := sizeJv_pos v; simp [sizeObj]; omega

/-! ### Parsing helper lemmas -/

theorem isDigit_toNat {c : Char} (h : c.isDigit = true) : 48 ≤ c.toNat ∧ c.toNat ≤ 57 := by
  simp only [Char.isDigit, Bool.and_eq_true, decide_eq_true_eq] at h
  exact ⟨UInt32.le_toNat_of_le (by decide) h.1, UInt32.toNat_le_of_le (by decide) h.2⟩

theorem char_ne_of_toNat {a b : Char} (h : a.toNat ≠ b.toNat) : a ≠ b :=
  fun he => h (congrArg Char.toNat he)

theorem char_beq_false {a b : Char} (h : a.toNat ≠ b.toNat) : (a == b) = false := by
  simp only [beq_eq_false_iff_ne, ne_eq]
  exact char_ne_of_toNat h

theorem digit_beq_false {d : Char} (hb1 : 48 ≤ d.toNat) (hb2 : d.toNat ≤ 57)
    (c : Char) (hc : c.toNat < 48 ∨ 57 < c.toNat) : (d == c) = false :=
  char_beq_false (by omega)

theorem isWs_of_digit {c : Char} (h : c.isDigit = true) : isWs c = false := by
  obtain ⟨h1, h2⟩ := isDigit_toNat h
  simp only [isWs, Bool.or_eq_false_iff, decide_eq_false_iff_not]
  refine ⟨⟨⟨?_, ?_⟩, ?_⟩, ?_⟩ <;> intro he <;> subst he <;> revert h1 h2 <;> decide

theorem headIs_nil (c : Char) : headIs c [] = false := rfl

theorem headIs_cons (c x : Char) (l : List Char) : headIs c (x :: l) = (x == c) := rfl

theorem stripTok_append (t r : List Char) : stripTok t (t ++ r) = some r := by
  induction t with
  | nil => rfl
  | cons c cs ih => simp [stripTok, ih]

theorem skipWs_cons_of_not_ws {c : Char} (l : List Char) (h : isWs c = false) :
    skipWs (c :: l) = c :: l := by
  simp [skipWs, List.dropWhile_cons, h]

theorem skipWs_space (l : List Char) : skipWs (' ' :: l) = skipWs l := by
  have h : isWs ' ' = true := by decide
  simp [skipWs, List.dropWhile_cons, h]

theorem hexVal_hexDigit {d : Nat} (h : d < 16) : hexVal (hexDigit d) = some d := by
  interval_cases d <;> decide

theorem natDigits_head (n : Nat) :
    ∃ d ds, natDigits n = d :: ds ∧ d.isDigit = true := by
  cases hd : natDigits n with
  | nil => exact absurd hd (natDigits_ne_nil n)
  | cons d ds =>
    exact ⟨d, ds, rfl, natDigits_all_digits n d (by rw [hd]; simp)⟩

/-- Every printed JSON value starts with a character that is neither
whitespace nor a closing bracket. -/
theorem printJv_head (v : Jv) :
    ∃ c cs, printJv v = c :: cs ∧ isWs c = false ∧ (c == ']') = false := by
  cases v with
  | null => exact ⟨'n', _, rfl, by decide, by decide⟩
  | bool b => cases b with
    | true => exact ⟨'t', _, rfl, by decide, by decide⟩
    | false => exact ⟨'f', _, rfl, by decide, by decide⟩
  | num i =>
    obtain ⟨d, ds, hd, hdig⟩ := natDigits_head i.natAbs
    obtain ⟨hb1, hb2⟩ := isDigit_toNat hdig
    by_cases hneg : i < 0
    · exact ⟨'-', natDigits i.natAbs, by simp [printJv, intChars, hneg], by decide, by decide⟩
    · refine ⟨d, ds, by simp [printJv, intChars, hneg, hd], isWs_of_digit hdig, ?_⟩
      have h93 : (']').toNat = 93 := rfl
      exact char_beq_false (by omega)
  | str s => exact ⟨'"', _, rfl, by decide, by decide⟩
  | arr items => cases items with
    | nil => exact ⟨'[', _, rfl, by decide, by decide⟩
    | cons h t => exact ⟨'[', _, rfl, by decide, by decide⟩
  | obj fields => cases fields with
    | nil => exact ⟨'\x7b', _, rfl, by decide, by decide⟩
    | cons k v t => exact ⟨'\x7b', _, rfl, by decide, by decide⟩

/-- Unescaping inverts escaping: parsing an escaped string body followed by
the closing quote recovers the original string and remainder. -/
theorem parseStrBody_escStr (s : List Char) :
    ∀ rest, parseStrBody (escStr s ++ '"' :: rest) = some (s, rest) := by
  induction s with
  | nil =>
    intro rest
    rw [escStr, List.nil_append, parseStrBody.eq_def]
    simp
  | cons c s' ih =>
    intro rest
    have key := ih rest
    rw [escStr, List.append_assoc]
    rw [escChar]
    split_ifs with h1 h2 h3 h4 h5 h6 h7 h8
    · subst h1
      rw [List.cons_append, List.cons_append, parseStrBody.eq_def]
      simp [key]
    · subst h2
      rw [List.cons_append, List.cons_append, parseStrBody.eq_def]
      simp [key]
    · subst h3
      rw [List.cons_append, List.cons_append, parseStrBody.eq_def]
      simp [key]
    · subst h4
      rw [List.cons_append, List.cons_append, parseStrBody.eq_def]
      simp [key]
    · subst h5
      rw [List.cons_append, List.cons_append, parseStrBody.eq_def]
      simp [key]
    · have hc : c = Char.ofNat 8 := by
        rw [show (8 : Nat) = c.toNat from h6.symm, Char.ofNat_toNat]
      rw [List.cons_append, List.cons_append, parseStrBody.eq_def]
      simp [key, hc]
    · have hc : c = Char.ofNat 12 := by
        rw [show (12 : Nat) = c.toNat from h7.symm, Char.ofNat_toNat]
      rw [List.cons_append, List.cons_append, parseStrBody.eq_def]
      simp [key, hc]
    · rw [List.cons_append, List.cons_append, List.cons_append, List.cons_append,
        List.cons_append, List.cons_append, parseStrBody.eq_def]
      have e1 : hexVal '0' = some 0 := by decide
      have e2 : hexVal (hexDigit (c.toNat / 16)) = some (c.toNat / 16) :=
        hexVal_hexDigit (by omega)
      have e3 : hexVal (hexDigit (c.toNat % 16)) = some (c.toNat % 16) :=
        hexVal_hexDigit (by omega)
      simp only [e1, e2, e3]
      have e4 : c.toNat / 16 * 16 + c.toNat % 16 = c.toNat := by omega
      simp [e4, Char.ofNat_toNat, key]
    · rw [List.cons_append, parseStrBody.eq_def]
      simp [h1, h2, key]

/-- The characters following the opening bracket of a printed array. -/
def arrBody (items : JArr) (rest : List Char) : List Char :=
  match items with
  | .nil => ']' :: rest
  | .cons h t => printJv h ++ (printArrTail t ++ ']' :: rest)

/-- The characters following the opening brace of a printed object. -/
def objBody (fields : JObj) (rest : List Char) : List Char :=
  match fields with
  | .nil => '\x7d' :: rest
  | .cons k v t =>
      '"' :: (escStr k ++ ('"' :: ':' :: ' ' :: (printJv v ++ (printObjTail t ++ '\x7d' :: rest))))

theorem print_arr_append (items : JArr) (rest : List Char) :
    printJv (.arr items) ++ rest = '[' :: arrBody items rest := by
  cases items <;> simp [printJv, arrBody]

theorem print_obj_append (fields : JObj) (rest : List Char) :
    printJv (.obj fields) ++ rest = '\x7b' :: objBody fields rest := by
  cases fields <;> simp [printJv, objBody]

theorem skipWs_printJv (v : Jv) (rest : List Char) :
    skipWs (printJv v ++ rest) = printJv v ++ rest := by
  obtain ⟨c, cs, hc, hws, _⟩ := printJv_head v
  rw [hc, List.cons_append, skipWs_cons_of_not_ws _ hws]

theorem headIs_rbrack_print (v : Jv) (rest : List Char) :
    headIs ']' (printJv v ++ rest) = false := by
  obtain ⟨c, cs, hc, _, hbr⟩ := printJv_head v
  rw [hc, List.cons_append, headIs_cons, hbr]

theorem skipWs_arrBody (items : JArr) (rest : List Char) :
    skipWs (arrBody items rest) = arrBody items rest := by
  cases items with
  | nil => exact skipWs_cons_of_not_ws _ (by decide)
  | cons h t => rw [arrBody, skipWs_printJv]

theorem skipWs_objBody (fields : JObj) (rest : List Char) :
    skipWs (objBody fields rest) = objBody fields rest := by
  cases fields with
  | nil => exact skipWs_cons_of_not_ws _ (by decide)
  | cons k v t => exact skipWs_cons_of_not_ws _ (by decide)

theorem skipWs_arrTail (t : JArr) (rest : List Char) :
    skipWs (printArrTail t ++ ']' :: rest) = printArrTail t ++ ']' :: rest := by
  cases t with
  | nil => exact skipWs_cons_of_not_ws _ (by decide)
  | cons h t' => exact skipWs_cons_of_not_ws _ (by decide)

theorem skipWs_objTail (t : JObj) (rest : List Char) :
    skipWs (printObjTail t ++ '\x7d' :: rest) = printObjTail t ++ '\x7d' :: rest := by
  cases t with
  | nil => exact skipWs_cons_of_not_ws _ (by decide)
  | cons k v t' => exact skipWs_cons_of_not_ws _ (by decide)

theorem headNot_digit_arrTail (t : JArr) (rest : List Char) :
    headNot Char.isDigit (printArrTail t ++ ']' :: rest) := by
  cases t with
  | nil => exact (by decide : Char.isDigit ']' = false)
  | cons h t' => exact (by decide : Char.isDigit ',' = false)

theorem headNot_digit_objTail (t : JObj) (rest : List Char) :
    headNot Char.isDigit (printObjTail t ++ '\x7d' :: rest) := by
  cases t with
  | nil => exact (by decide : Char.isDigit '\x7d' = false)
  | cons k v t' => exact (by decide : Char.isDigit ',' = false)

mutual

/-- Parsing a printed JSON value (with any sufficient fuel, before any
non-digit-headed remainder) recovers the value and the remainder. -/
theorem parse_printJv (v : Jv) (fuel : Nat) (rest : List Char)
    (hfuel : sizeJv v ≤ fuel) (hrest : headNot Char.isDigit rest) :
    parseJv fuel (printJv v ++ rest) = some (v, rest) := by
  obtain ⟨f, rfl⟩ : ∃ f, fuel = f + 1 := ⟨fuel - 1, by have := sizeJv_pos v; omega⟩
  cases v with
  | null =>
    rw [parseJv]
    rw [show printJv .null ++ rest = 'n' :: 'u' :: 'l' :: 'l' :: rest from rfl]
    rw [headIs_cons, show ('n' == 'n') = true from rfl, if_pos rfl]
    rw [show 'n' :: 'u' :: 'l' :: 'l' :: rest = ['n', 'u', 'l', 'l'] ++ rest from rfl,
      stripTok_append]
    rfl
  | bool b =>
    cases b with
    | true =>
      rw [parseJv]
      rw [show printJv (.bool true) ++ rest = 't' :: 'r' :: 'u' :: 'e' :: rest from rfl]
      rw [headIs_cons, show ('t' == 'n') = false from rfl, if_neg (by simp)]
      rw [headIs_cons, show ('t' == 't') = true from rfl, if_pos rfl]
      rw [show 't' :: 'r' :: 'u' :: 'e' :: rest = ['t', 'r', 'u', 'e'] ++ rest from rfl,
        stripTok_append]
      rfl
    | false =>
      rw [parseJv]
      rw [show printJv (.bool false) ++ rest = 'f' :: 'a' :: 'l' :: 's' :: 'e' :: rest from rfl]
      rw [headIs_cons, show ('f' == 'n') = false from rfl, if_neg (by simp)]
      rw [headIs_cons, show ('f' == 't') = false from rfl, if_neg (by simp)]
      rw [headIs_cons, show ('f' == 'f') = true from rfl, if_pos rfl]
      rw [show 'f' :: 'a' :: 'l' :: 's' :: 'e' :: rest = ['f', 'a', 'l', 's', 'e'] ++ rest
        from rfl, stripTok_append]
      rfl
  | num i =>
    rw [parseJv]
    by_cases hneg : i < 0
    · rw [show printJv (.num i) ++ rest = '-' :: (natDigits i.natAbs ++ rest) by
        simp [printJv, intChars, hneg]]
      rw [headIs_cons, show ('-' == 'n') = false from rfl, if_neg (by simp)]
      rw [headIs_cons, show ('-' == 't') = false from rfl, if_neg (by simp)]
      rw [headIs_cons, show ('-' == 'f') = false from rfl, if_neg (by simp)]
      rw [headIs_cons, show ('-' == '"') = false from rfl, if_neg (by simp)]
      rw [headIs_cons, show ('-' == '[') = false from rfl, if_neg (by simp)]
      rw [headIs_cons, show ('-' == '\x7b') = false from rfl, if_neg (by simp)]
      rw [headIs_cons, show ('-' == '-') = true from rfl, if_pos rfl]
      rw [List.tail_cons, readNat_natDigits _ _ hrest]
      have hi : (-(i.natAbs : Int)) = i := by omega
      simp only [Option.map_some']
      rw [hi]
    · obtain ⟨d, ds, hd, hdig⟩ := natDigits_head i.natAbs
      obtain ⟨hb1, hb2⟩ := isDigit_toNat hdig
      have hprint : printJv (.num i) ++ rest = d :: (ds ++ rest) := by
        simp [printJv, intChars, hneg, hd]
      have hds : d :: (ds ++ rest) = natDigits i.natAbs ++ rest := by simp [hd]
      rw [hprint]
      rw [headIs_cons, digit_beq_false hb1 hb2 'n' (by decide), if_neg (by simp)]
      rw [headIs_cons, digit_beq_false hb1 hb2 't' (by decide), if_neg (by simp)]
      rw [headIs_cons, digit_beq_false hb1 hb2 'f' (by decide), if_neg (by simp)]
      rw [headIs_cons, digit_beq_false hb1 hb2 '"' (by decide), if_neg (by simp)]
      rw [headIs_cons, digit_beq_false hb1 hb2 '[' (by decide), if_neg (by simp)]
      rw [headIs_cons, digit_beq_false hb1 hb2 '\x7b' (by decide), if_neg (by simp)]
      rw [headIs_cons, digit_beq_false hb1 hb2 '-' (by decide), if_neg (by simp)]
      rw [hds, readNat_natDigits _ _ hrest]
      have hi : ((i.natAbs : Int)) = i := by omega
      simp only [Option.map_some']
      rw [hi]
  | str s =>
    rw [parseJv]
    rw [show printJv (.str s) ++ rest = '"' :: (escStr s ++ '"' :: rest) by
      simp [printJv]]
    rw [headIs_cons, show ('"' == 'n') = false from rfl, if_neg (by simp)]
    rw [headIs_cons, show ('"' == 't') = false from rfl, if_neg (by simp)]
    rw [headIs_cons, show ('"' == 'f') = false from rfl, if_neg (by simp)]
    rw [headIs_cons, show ('"' == '"') = true from rfl, if_pos rfl]
    rw [List.tail_cons, parseStrBody_escStr]
    rfl
  | arr items =>
    rw [parseJv, print_arr_append]
    rw [headIs_cons, show ('[' == 'n') = false from rfl, if_neg (by simp)]
    rw [headIs_cons, show ('[' == 't') = false from rfl, if_neg (by simp)]
    rw [headIs_cons, show ('[' == 'f') = false from rfl, if_neg (by simp)]
    rw [headIs_cons, show ('[' == '"') = false from rfl, if_neg (by simp)]
    rw [headIs_cons, show ('[' == '[') = true from rfl, if_pos rfl]
    rw [List.tail_cons, skipWs_arrBody]
    rw [parse_arrBody items f rest (by simp [sizeJv] at hfuel; omega)]
    rfl
  | obj fields =>
    rw [parseJv, print_obj_append]
    rw [headIs_cons, show ('\x7b' == 'n') = false from rfl, if_neg (by simp)]
    rw [headIs_cons, show ('\x7b' == 't') = false from rfl, if_neg (by simp)]
    rw [headIs_cons, show ('\x7b' == 'f') = false from rfl, if_neg (by simp)]
    rw [headIs_cons, show ('\x7b' == '"') = false from rfl, if_neg (by simp)]
    rw [headIs_cons, show ('\x7b' == '[') = false from rfl, if_neg (by simp)]
    rw [headIs_cons, show ('\x7b' == '\x7b') = true from rfl, if_pos rfl]
    rw [List.tail_cons, skipWs_objBody]
    rw [parse_objBody fields f rest (by simp [sizeJv] at hfuel; omega)]
    rfl

/-- Parsing the body of a printed array (after the opening bracket)
recovers its items and the remainder. -/
theorem parse_arrBody (items : JArr) (fuel : Nat) (rest : List Char)
    (hfuel : sizeArr items ≤ fuel) :
    parseArrItems fuel (arrBody items rest) = some (items, rest) := by
  obtain ⟨f, rfl⟩ : ∃ f, fuel = f + 1 := ⟨fuel - 1, by have := sizeArr_pos items; omega⟩
  cases items with
  | nil =>
    rw [arrBody, parseArrItems, headIs_cons, show (']' == ']') = true from rfl,
      if_pos rfl, List.tail_cons]
  | cons h t =>
    rw [arrBody, parseArrItems, headIs_rbrack_print, if_neg (by simp)]
    have hsz : sizeArr (.cons h t) = sizeJv h + sizeArr t := rfl
    have hpos := sizeArr_pos t
    rw [parse_printJv h (f + 1) _ (by rw [hsz] at hfuel; omega) (headNot_digit_arrTail t rest)]
    simp only [Option.some_bind]
    rw [skipWs_arrTail, parse_arrTail t f rest (by have := sizeJv_pos h; rw [hsz] at hfuel; omega)]
    rfl

/-- Parsing the tail of a printed array (after one item) recovers the
remaining items and the remainder. -/
theorem parse_arrTail (t : JArr) (fuel : Nat) (rest : List Char)
    (hfuel : sizeArr t ≤ fuel) :
    parseArrRest fuel (printArrTail t ++ ']' :: rest) = some (t, rest) := by
  obtain ⟨f, rfl⟩ : ∃ f, fuel = f + 1 := ⟨fuel - 1, by have := sizeArr_pos t; omega⟩
  cases t with
  | nil =>
    rw [printArrTail, List.nil_append, parseArrRest, headIs_cons,
      show (']' == ']') = true from rfl, if_pos rfl, List.tail_cons]
  | cons h t' =>
    rw [printArrTail, List.cons_append, List.cons_append, parseArrRest]
    rw [headIs_cons, show (',' == ']') = false from rfl, if_neg (by simp)]
    rw [headIs_cons, show (',' == ',') = true from rfl, if_pos rfl]
    have hsz : sizeArr (.cons h t') = sizeJv h + sizeArr t' := rfl
    have hpos := sizeArr_pos t'
    rw [List.tail_cons, skipWs_space, List.append_assoc, skipWs_printJv]
    rw [parse_printJv h (f + 1) _ (by rw [hsz] at hfuel; omega) (headNot_digit_arrTail t' rest)]
    simp only [Option.some_bind]
    rw [skipWs_arrTail,
      parse_arrTail t' f rest (by have := sizeJv_pos h; rw [hsz] at hfuel; omega)]
    rfl

/-- Parsing the body of a printed object (after the opening brace)
recovers its entries and the remainder. -/
theorem parse_objBody (fields : JObj) (fuel : Nat) (rest : List Char)
    (hfuel : sizeObj fields ≤ fuel) :
    parseObjItems fuel (objBody fields rest) = some (fields, rest) := by
  obtain ⟨f, rfl⟩ : ∃ f, fuel = f + 1 := ⟨fuel - 1, by have := sizeObj_pos fields; omega⟩
  cases fields with
  | nil =>
    rw [objBody, parseObjItems, headIs_cons, show ('\x7d' == '\x7d') = true from rfl,
      if_pos rfl, List.tail_cons]
  | cons k v t =>
    rw [objBody, parseObjItems]
    rw [headIs_cons, show ('"' == '\x7d') = false from rfl, if_neg (by simp)]
    rw [headIs_cons, show ('"' == '"') = true from rfl, if_pos rfl]
    have hsz : sizeObj (.cons k v t) = sizeJv v + sizeObj t := rfl
    have hpos := sizeObj_pos t
    rw [List.tail_cons, parseStrBody_escStr]
    simp only [Option.some_bind]
    rw [skipWs_cons_of_not_ws _ (by decide)]
    rw [headIs_cons, show (':' == ':') = true from rfl, if_pos rfl]
    rw [List.tail_cons, skipWs_space, skipWs_printJv]
    rw [parse_printJv v (f + 1) _ (by rw [hsz] at hfuel; omega) (headNot_digit_objTail t rest)]
    simp only [Option.some_bind]
    rw [skipWs_objTail,
      parse_objTail t f rest (by have := sizeJv_pos v; rw [hsz] at hfuel; omega)]
    rfl

/-- Parsing the tail of a printed object (after one entry) recovers the
remaining entries and the remainder. -/
theorem parse_objTail (t : JObj) (fuel : Nat) (rest : List Char)
    (hfuel : sizeObj t ≤ fuel) :
    parseObjRest fuel (printObjTail t ++ '\x7d' :: rest) = some (t, rest) := by
  obtain ⟨f, rfl⟩ : ∃ f, fuel = f + 1 := ⟨fuel - 1, by have := sizeObj_pos t; omega⟩
  cases t with
  | nil =>
    rw [printObjTail, List.nil_append, parseObjRest, headIs_cons,
      show ('\x7d' == '\x7d') = true from rfl, if_pos rfl, List.tail_cons]
  | cons k v t' =>
    rw [printObjTail, List.cons_append, List.cons_append, List.cons_append, parseObjRest]
    rw [headIs_cons, show (',' == '\x7d') = false from rfl, if_neg (by simp)]
    rw [headIs_cons, show (',' == ',') = true from rfl, if_pos rfl]
    have hsz : sizeObj (.cons k v t') = sizeJv v + sizeObj t' := rfl
    have hpos := sizeObj_pos t'
    rw [List.tail_cons, skipWs_space, skipWs_cons_of_not_ws _ (by decide)]
    simp only [headIs_cons, show (('"' : Char) == '"') = true from rfl, if_true]
    simp only [List.tail_cons, List.cons_append, List.append_assoc]
    rw [parseStrBody_escStr]
    simp only [Option.some_bind]
    rw [skipWs_cons_of_not_ws _ (by decide)]
    rw [headIs_cons, show (':' == ':') = true from rfl, if_pos rfl]
    simp only [List.tail_cons, List.nil_append]
    rw [skipWs_space, skipWs_printJv]
    rw [parse_printJv v (f + 1) _ (by rw [hsz] at hfuel; omega) (headNot_digit_objTail t' rest)]
    simp only [Option.some_bind]
    rw [skipWs_objTail,
      parse_objTail t' f rest (by have := sizeJv_pos v; rw [hsz] at hfuel; omega)]
    rfl

end

mutual

/-- The parse fuel bound is covered by the printed length plus one. -/
theorem sizeJv_le (v : Jv) : sizeJv v ≤ (printJv v).length + 1 := by
  cases v with
  | null => simp [sizeJv, printJv]
  | bool b => cases b <;> simp [sizeJv, printJv]
  | num i => simp [sizeJv]
  | str s => simp [sizeJv]
  | arr items =>
    cases items with
    | nil => simp [sizeJv, sizeArr, printJv]
    | cons h t =>
      have ih1 := sizeJv_le h
      have ih2 := sizeArr_le t
      simp only [sizeJv, sizeArr, printJv, List.length_cons, List.length_append]
      omega
  | obj fields =>
    cases fields with
    | nil => simp [sizeJv, sizeObj, printJv]
    | cons k v' t =>
      have ih1 := sizeJv_le v'
      have ih2 := sizeObj_le t
      simp only [sizeJv, sizeObj, printJv, List.length_cons, List.length_append]
      omega

/-- Fuel bound for array tails is covered by their printed length plus one. -/
theorem sizeArr_le (t : JArr) : sizeArr t ≤ (printArrTail t).length + 1 := by
  cases t with
  | nil => simp [sizeArr, printArrTail]
  | cons h t' =>
    have ih1 := sizeJv_le h
    have ih2 := sizeArr_le t'
    simp only [sizeArr, printArrTail, List.length_cons, List.length_append]
    omega

/-- Fuel bound for object tails is covered by their printed length plus one. -/
theorem sizeObj_le (t : JObj) : sizeObj t ≤ (printObjTail t).length + 1 := by
  cases t with
  | nil => simp [sizeObj, printObjTail]
  | cons k v' t' =>
    have ih1 := sizeJv_le v'
    have ih2 := sizeObj_le t'
    simp only [sizeObj, printObjTail, List.length_cons, List.length_append]
    omega

end

/-- `json.loads` inverts `json.dumps` on every JSON-safe value. -/
theorem jloads_jdumps (v : Jv) : jloads (jdumps v) = some v := by
  have hdata : (jdumps v).data = printJv v := rfl
  have h1 : skipWs (printJv v) = printJv v := by
    have := skipWs_printJv v []
    simpa using this
  have key := parse_printJv v ((printJv v).length + 1) [] (by simpa using sizeJv_le v) trivial
  rw [List.append_nil] at key
  rw [jloads]
  simp only [hdata, h1, key]
  simp [skipWs]

/-! ## Association-list key-value helpers

Model Python dicts / Redis keyspaces as association lists where a newer
binding shadows an older one. -/

/-- First binding for `k`, if any. -/
def kvGet {β : Type} : List (String × β) → String → Option β
  | [], _ => none
  | (k', v) :: rest, k => if k' == k then some v else kvGet rest k

/-- Bind `k` to `v`, shadowing any previous binding. -/
def kvSet {β : Type} (store : List (String × β)) (k : String) (v : β) :
    List (String × β) :=
  (k, v) :: store

/-- Remove every binding for `k`. -/
def kvErase {β : Type} : List (String × β) → String → List (String × β)
  | [], _ => []
  | (k', v) :: rest, k => if k' == k then kvErase rest k else (k', v) :: kvErase rest k

theorem kvGet_kvSet {β : Type} (store : List (String × β)) (k : String) (v : β) :
    kvGet (kvSet store k v) k = some v := by
  simp [kvGet, kvSet]

theorem kvGet_kvSet_ne {β : Type} (store : List (String × β)) {k k' : String} (v : β)
    (h : k ≠ k') : kvGet (kvSet store k v) k' = kvGet store k' := by
  simp [kvGet, kvSet, h]

theorem kvGet_kvErase {β : Type} (store : List (String × β)) (k : String) :
    kvGet (kvErase store k) k = none := by
  induction store with
  | nil => rfl
  | cons p rest ih =>
    obtain ⟨k', v⟩ := p
    by_cases h : k' == k
    · simpa [kvErase, h] using ih
    · simp only [kvErase, h, if_false, Bool.false_eq_true]
      simp [kvGet, h, ih]

theorem kvGet_kvErase_ne {β : Type} (store : List (String × β)) {k k' : String}
    (h : k ≠ k') : kvGet (kvErase store k) k' = kvGet store k' := by
  induction store with
  | nil => rfl
  | cons p rest ih =>
    obtain ⟨k0, v⟩ := p
    by_cases hp : k0 == k
    · have hne : (k0 == k') = false := by
        have hk : k0 = k := by simpa using hp
        simp [hk, h]
      simp only [kvErase, hp, if_true]
      simp [kvGet, hne, ih]
    · simp only [kvErase, hp, Bool.false_eq_true, if_false]
      by_cases hq : k0 == k'
      · simp [kvGet, hq]
      · simp [kvGet, hq, ih]

/-! ## DistributedCache client (`redis_manager.py`, `RedisCacheManager`)

The backend is modelled in three states: `absent` (`self.client is None`,
after a failed `initialize`), `failing` (every backend call raises, caught
by the operation's `except`), and `healthy` with a keyspace of string
values. Entry TTLs are not modelled (no claim depends on cache expiry
inside Redis itself). -/

/-- Operation counters of `RedisCacheManager._stats`. -/
structure RedisStats where
  hits : Nat
  misses : Nat
  sets : Nat
  deletes : Nat
  errors : Nat
  deriving DecidableEq

/-- Sum of all counters; a call increments "at least one counter" exactly
when it increases this sum. -/
def RedisStats.total (s : RedisStats) : Nat :=
  s.hits + s.misses + s.sets + s.deletes + s.errors

/-- The Redis connection as seen by the manager. -/
inductive RedisClient where
  | absent : RedisClient
  | failing : RedisClient
  | healthy (store : List (String × String)) : RedisClient
  deriving DecidableEq

/-- State of a `RedisCacheManager`. -/
structure RedisMgr where
  client : RedisClient
  stats : RedisStats
  deriving DecidableEq

/-- `str(value)` / `json.dumps(value)` as applied by `RedisCacheManager.set`:
dicts and lists are JSON-encoded, everything else goes through `str`. -/
def redisSerialize : Jv → String
  | .obj fields => jdumps (.obj fields)
  | .arr items => jdumps (.arr items)
  | .null => "None"
  | .bool true => "True"
  | .bool false => "False"
  | .num i => String.mk (intChars i)
  | .str s => String.mk s

/-- `RedisCacheManager.get`: miss on no client; on a hit, try JSON decoding
and fall back to the raw string; backend errors count as `errors` and
return `None`. -/
def rget (m : RedisMgr) (key : String) : Option Jv × RedisMgr :=
  match m.client with
  | .absent => (none, m)
  | .failing => (none, { m with stats := { m.stats with errors := m.stats.errors + 1 } })
  | .healthy store =>
    match kvGet store key with
    | none => (none, { m with stats := { m.stats with misses := m.stats.misses + 1 } })
    | some data =>
      match jloads data with
      | some v => (some v, { m with stats := { m.stats with hits := m.stats.hits + 1 } })
      | none => (some (.str data.data), { m with stats := { m.stats with hits := m.stats.hits + 1 } })

/-- `RedisCacheManager.set` (the TTL argument does not affect the modelled
keyspace). -/
def rset (m : RedisMgr) (key : String) (value : Jv) : Bool × RedisMgr :=
  match m.client with
  | .absent => (false, m)
  | .failing => (false, { m with stats := { m.stats with errors := m.stats.errors + 1 } })
  | .healthy store =>
    (true, { client := .healthy (kvSet store key (redisSerialize value)),
             stats := { m.stats with sets := m.stats.sets + 1 } })

/-- `RedisCacheManager.delete`: `deletes` is incremented whether or not the
key existed; the result says whether a key was removed. -/
def rdelete (m : RedisMgr) (key : String) : Bool × RedisMgr :=
  match m.client with
  | .absent => (false, m)
  | .failing => (false, { m with stats := { m.stats with errors := m.stats.errors + 1 } })
  | .healthy store =>
    ((kvGet store key).isSome,
     { client := .healthy (kvErase store key),
       stats := { m.stats with deletes := m.stats.deletes + 1 } })

/-- `RedisCacheManager.exists`: no statistics counter is touched on any
path, including the error path. -/
def rexists (m : RedisMgr) (key : String) : Bool × RedisMgr :=
  match m.client with
  | .absent => (false, m)
  | .failing => (false, m)
  | .healthy store => ((kvGet store key).isSome, m)

/-- `RedisCacheManager.expire`: true iff the key exists (the Redis `EXPIRE`
reply); no statistics counter is touched on any path. -/
def rexpire (m : RedisMgr) (key : String) (_ttl : Nat) : Bool × RedisMgr :=
  match m.client with
  | .absent => (false, m)
  | .failing => (false, m)
  | .healthy store => ((kvGet store key).isSome, m)

/-- The per-key loop of `RedisCacheManager.get_multiple`: a found key is
decoded (JSON, else raw) and counted as a hit, an absent key as a miss. -/
def rmgetLoop (store : List (String × String)) :
    List String → RedisStats → List (String × Jv) × RedisStats
  | [], stats => ([], stats)
  | key :: keys, stats =>
    match kvGet store key with
    | some data =>
      let v := match jloads data with
        | some v => v
        | none => .str data.data
      let (rest, stats') := rmgetLoop store keys { stats with hits := stats.hits + 1 }
      ((key, v) :: rest, stats')
    | none => rmgetLoop store keys { stats with misses := stats.misses + 1 }

/-- `RedisCacheManager.get_multiple`: empty key list short-circuits before
the backend call. -/
def rgetMultiple (m : RedisMgr) (keys : List String) : List (String × Jv) × RedisMgr :=
  match m.client with
  | .absent => ([], m)
  | .failing =>
    if keys.isEmpty then ([], m)
    else ([], { m with stats := { m.stats with errors := m.stats.errors + 1 } })
  | .healthy store =>
    if keys.isEmpty then ([], m)
    else
      let (out, stats') := rmgetLoop store keys m.stats
      (out, { client := .healthy store, stats := stats' })

/-- `RedisCacheManager.set_multiple`: empty data short-circuits; otherwise
all entries are serialized and stored, and `sets` grows by the batch size. -/
def rsetMultiple (m : RedisMgr) (data : List (String × Jv)) : Bool × RedisMgr :=
  match m.client with
  | .absent => (false, m)
  | .failing =>
    if data.isEmpty then (false, m)
    else (false, { m with stats := { m.stats with errors := m.stats.errors + 1 } })
  | .healthy store =>
    if data.isEmpty then (false, m)
    else
      (true,
       { client := .healthy
           (data.foldl (fun st p => kvSet st p.1 (redisSerialize p.2)) store),
         stats := { m.stats with sets := m.stats.sets + data.length } })

/-- `RedisCacheManager.clear_pattern`. The glob match itself is executed by
the Redis server (`KEYS pattern`), outside this repository; it is modelled
as the predicate the server applies to keys. With no matching key the
operation returns before `delete`, touching no counter. -/
def rclearPattern (m : RedisMgr) (matchKey : String → Bool) : Nat × RedisMgr :=
  match m.client with
  | .absent => (0, m)
  | .failing => (0, { m with stats := { m.stats with errors := m.stats.errors + 1 } })
  | .healthy store =>
    let keys := ((store.map Prod.fst).filter matchKey).dedup
    if keys.isEmpty then (0, m)
    else
      (keys.length,
       { client := .healthy (store.filter (fun p => ¬ matchKey p.1)),
         stats := { m.stats with deletes := m.stats.deletes + keys.length } })

theorem rmgetLoop_total (store : List (String × String)) (keys : List String) :
    ∀ stats : RedisStats, (rmgetLoop store keys stats).2.total = stats.total + keys.length := by
  induction keys with
  | nil => intro stats; simp [rmgetLoop]
  | cons key keys ih =>
    intro stats
    rw [rmgetLoop]
    cases hkv : kvGet store key with
    | none =>
      simp only []
      rw [ih]
      simp [RedisStats.total]
      omega
    | some data =>
      simp only []
      rw [ih]
      simp [RedisStats.total]
      omega

/-- C8, counterexample: the claim says every DistributedCache call increments
at least one of the operational counters, but `exists` on a raising backend
returns `false` without touching any counter. -/
theorem C8_exists_no_counter :
    (rexists ⟨.failing, ⟨0, 0, 0, 0, 0⟩⟩ "k").1 = false ∧
    (rexists ⟨.failing, ⟨0, 0, 0, 0, 0⟩⟩ "k").2.stats = ⟨0, 0, 0, 0, 0⟩ :=
  ⟨rfl, rfl⟩

/-- C8 (amended): every DistributedCache operation catches backend errors and
returns a failure/miss value rather than propagating; `get`, `set` and
`delete` increment exactly one counter whenever a client is configured,
`getMultiple`/`setMultiple` increment counters exactly when their input is
nonempty, `clearByPattern` exactly when at least one key matches, while
`exists` and `expire` never touch a counter (even on a backend error), and
no operation touches a counter when no client is configured. -/
theorem C8_redis_ops_amended (stats : RedisStats) (st : List (String × String))
    (key : String) (ttl : Nat) (v : Jv) (keys : List String)
    (data : List (String × Jv)) (pat : String → Bool) :
    (rget ⟨.failing, stats⟩ key).1 = none ∧
    (rset ⟨.failing, stats⟩ key v).1 = false ∧
    (rdelete ⟨.failing, stats⟩ key).1 = false ∧
    (rexists ⟨.failing, stats⟩ key).1 = false ∧
    (rexpire ⟨.failing, stats⟩ key ttl).1 = false ∧
    (rgetMultiple ⟨.failing, stats⟩ keys).1 = [] ∧
    (rsetMultiple ⟨.failing, stats⟩ data).1 = false ∧
    (rclearPattern ⟨.failing, stats⟩ pat).1 = 0 ∧
    (rget ⟨.healthy st, stats⟩ key).2.stats.total = stats.total + 1 ∧
    (rget ⟨.failing, stats⟩ key).2.stats.total = stats.total + 1 ∧
    (rset ⟨.healthy st, stats⟩ key v).2.stats.total = stats.total + 1 ∧
    (rset ⟨.failing, stats⟩ key v).2.stats.total = stats.total + 1 ∧
    (rdelete ⟨.healthy st, stats⟩ key).2.stats.total = stats.total + 1 ∧
    (rdelete ⟨.failing, stats⟩ key).2.stats.total = stats.total + 1 ∧
    (keys ≠ [] →
      (rgetMultiple ⟨.healthy st, stats⟩ keys).2.stats.total = stats.total + keys.length) ∧
    (keys ≠ [] → (rgetMultiple ⟨.failing, stats⟩ keys).2.stats.total = stats.total + 1) ∧
    (data ≠ [] →
      (rsetMultiple ⟨.healthy st, stats⟩ data).2.stats.total = stats.total + data.length) ∧
    (data ≠ [] → (rsetMultiple ⟨.failing, stats⟩ data).2.stats.total = stats.total + 1) ∧
    (rclearPattern ⟨.failing, stats⟩ pat).2.stats.total = stats.total + 1 ∧
    (((st.map Prod.fst).filter pat).dedup ≠ [] →
      (rclearPattern ⟨.healthy st, stats⟩ pat).2.stats.total
        = stats.total + ((st.map Prod.fst).filter pat).dedup.length) ∧
    (((st.map Prod.fst).filter pat).dedup = [] →
      (rclearPattern ⟨.healthy st, stats⟩ pat).2.stats = stats) ∧
    (∀ m : RedisMgr, (rexists m key).2.stats = m.stats) ∧
    (∀ m : RedisMgr, (rexpire m key ttl).2.stats = m.stats) ∧
    (rget ⟨.absent, stats⟩ key).2.stats = stats ∧
    (rset ⟨.absent, stats⟩ key v).2.stats = stats ∧
    (rdelete ⟨.absent, stats⟩ key).2.stats = stats := by
  refine ⟨rfl, rfl, rfl, rfl, rfl, ?_, ?_, rfl, ?_, ?_, ?_, ?_, ?_, ?_, ?_, ?_, ?_, ?_,
    ?_, ?_, ?_, ?_, ?_, rfl, rfl, rfl⟩
  · cases keys <;> simp [rgetMultiple]
  · cases data <;> simp [rsetMultiple]
  · rcases hkv : kvGet st key with _ | data
    · simp [rget, hkv, RedisStats.total]; omega
    · rcases hj : jloads data with _ | v' <;>
        simp [rget, hkv, hj, RedisStats.total] <;> omega
  · simp [rget, RedisStats.total]; omega
  · simp [rset, RedisStats.total]; omega
  · simp [rset, RedisStats.total]; omega
  · simp [rdelete, RedisStats.total]; omega
  · simp [rdelete, RedisStats.total]; omega
  · intro hk
    have hke : keys.isEmpty = false := by
      cases keys with
      | nil => exact absurd rfl hk
      | cons a l => rfl
    simp [rgetMultiple, hke, rmgetLoop_total]
  · intro hk
    have hke : keys.isEmpty = false := by
      cases keys with
      | nil => exact absurd rfl hk
      | cons a l => rfl
    simp [rgetMultiple, hke, RedisStats.total]; omega
  · intro hd
    have hde : data.isEmpty = false := by
      cases data with
      | nil => exact absurd rfl hd
      | cons a l => rfl
    simp [rsetMultiple, hde, RedisStats.total]; omega
  · intro hd
    have hde : data.isEmpty = false := by
      cases data with
      | nil => exact absurd rfl hd
      | cons a l => rfl
    simp [rsetMultiple, hde, RedisStats.total]; omega
  · simp [rclearPattern, RedisStats.total]; omega
  · intro hne
    have hke : ((st.map Prod.fst).filter pat).dedup.isEmpty = false := by
      cases hh : ((st.map Prod.fst).filter pat).dedup with
      | nil => exact absurd hh hne
      | cons a l => rfl
    simp [rclearPattern, hke, RedisStats.total]
    omega
  · intro hemp
    simp [rclearPattern, hemp]
  · intro m; cases m with
    | mk client stats' => cases client <;> rfl
  · intro m; cases m with
    | mk client stats' => cases client <;> rfl

/-- C8, witness: the amended statement instantiated at a concrete state with
nonempty batch inputs and a matching pattern. -/
theorem C8_redis_ops_amended_witness :
    (rgetMultiple ⟨.healthy [("a", "1")], ⟨0, 0, 0, 0, 0⟩⟩ ["a", "b"]).2.stats.total
      = (⟨0, 0, 0, 0, 0⟩ : RedisStats).total + 2 := by
  have h := C8_redis_ops_amended ⟨0, 0, 0, 0, 0⟩ [("a", "1")] "k" 7 .null
    ["a", "b"] [("x", .null)] (fun _ => true)
  exact h.2.2.2.2.2.2.2.2.2.2.2.2.2.2.1 (by simp)

/-- C10: through the DistributedCache client, `set` then `get` on the same
key round-trips every dict and every list value, but not every string: the
string `"123"` comes back as the JSON-parsed number `123`, which differs
from the stored string. -/
theorem C10_set_get_roundtrip (st : List (String × String)) (stats : RedisStats)
    (key : String) (fields : JObj) (items : JArr) :
    (rget (rset ⟨.healthy st, stats⟩ key (.obj fields)).2 key).1 = some (.obj fields) ∧
    (rget (rset ⟨.healthy st, stats⟩ key (.arr items)).2 key).1 = some (.arr items) ∧
    (rget (rset ⟨.healthy st, stats⟩ key (.str "123".data)).2 key).1 = some (.num 123) ∧
    Jv.num 123 ≠ Jv.str "123".data := by
  refine ⟨?_, ?_, ?_, by decide⟩
  · simp [rset, rget, redisSerialize, kvGet_kvSet, jloads_jdumps]
  · simp [rset, rget, redisSerialize, kvGet_kvSet, jloads_jdumps]
  · have h123 : jloads (String.mk "123".data) = some (.num 123) := by
      simp +decide [jloads, parseJv, headIs, skipWs, readNat, isWs, digitVal,
        List.takeWhile, List.dropWhile]
    simp [rset, rget, redisSerialize, kvGet_kvSet, h123]

/-! ## Conversation data model (`interfaces.py`)

`Message.timestamp` is an instant (`Option` because the dataclass accepts
`None`, which the serializer guards for); `Message.metadata` is any
JSON-safe value, exactly what survives the cache; `ConversationContext.metadata`
is a dict, as every construction site in `context_manager.py` builds it. -/

/-- `interfaces.Message` (content, role, timestamp, metadata). -/
structure Msg where
  content : String
  role : String
  timestamp : Option Nat
  metadata : Jv
  deriving DecidableEq

/-- The role check in `Message.__post_init__`. -/
def roleValid (r : String) : Bool :=
  r == "user" || r == "assistant" || r == "system"

/-- `interfaces.ConversationContext`. -/
structure Ctx where
  user_id : String
  session_id : String
  history : List Msg
  metadata : JObj
  deriving DecidableEq

/-- Python truthiness of a JSON-safe value (`if x:`). -/
def pyTruthy : Jv → Bool
  | .null => false
  | .bool b => b
  | .num i => decide (i ≠ 0)
  | .str s => decide (s ≠ [])
  | .arr .nil => false
  | .arr (.cons _ _) => true
  | .obj .nil => false
  | .obj (.cons _ _ _) => true

/-- Dict lookup (`d[k]` / `d.get(k)`). -/
def jGet : JObj → String → Option Jv
  | .nil, _ => none
  | .cons k v t, key => if k == key.data then some v else jGet t key

/-- Dict assignment (`d[k] = v`): replace in place, else append. -/
def jSet : JObj → List Char → Jv → JObj
  | .nil, k, v => .cons k v .nil
  | .cons k' v' t, k, v => if k' == k then .cons k' v t else .cons k' v' (jSet t k v)

/-- `datetime.fromisoformat`: the whole string must be a valid rendering. -/
def parseTs (s : List Char) : Option Nat :=
  match readNat s with
  | some (n, []) => some n
  | _ => none

/-- One message entry of `ContextManager._serialize_context`. -/
def serializeMsg (m : Msg) : Jv :=
  .obj (.cons "content".data (.str m.content.data)
    (.cons "role".data (.str m.role.data)
      (.cons "timestamp".data
          (match m.timestamp with
            | some t => .str (natDigits t)
            | none => .null)
        (.cons "metadata".data m.metadata .nil))))

/-- Lift a Lean list of JSON values into the JSON array type. -/
def toJArr : List Jv → JArr
  | [] => .nil
  | v :: r => .cons v (toJArr r)

/-- `ContextManager._serialize_context`: the JSON-safe structure put in the
distributed cache. -/
def serializeCtx (c : Ctx) : Jv :=
  .obj (.cons "user_id".data (.str c.user_id.data)
    (.cons "session_id".data (.str c.session_id.data)
      (.cons "history".data (.arr (toJArr (c.history.map serializeMsg)))
        (.cons "metadata".data (.obj c.metadata) .nil))))

/-- One iteration of the history loop in `ContextManager._deserialize_context`,
including the `Message.__post_init__` role check; `none` models the raised
exception (`KeyError`, `TypeError`, `ValueError`, or a bad timestamp), which
the caller catches and treats as a cache miss. The typed `content`/`role`
fields restrict attention to string-valued payloads, the only ones this
code ever writes. -/
def deserializeMsg (v : Jv) : Option Msg :=
  match v with
  | .obj fields =>
    match jGet fields "content", jGet fields "role", jGet fields "timestamp" with
    | some (.str content), some (.str role), some tsv =>
      let md := match jGet fields "metadata" with
        | some m => m
        | none => .obj .nil
      if roleValid (String.mk role) then
        if pyTruthy tsv then
          match tsv with
          | .str t => (parseTs t).map fun ts => ⟨String.mk content, String.mk role, some ts, md⟩
          | _ => none
        else some ⟨String.mk content, String.mk role, none, md⟩
      else none
    | _, _, _ => none
  | _ => none

/-- The history loop of `_deserialize_context`; any entry failure aborts. -/
def deserializeMsgs : JArr → Option (List Msg)
  | .nil => some []
  | .cons v t => (deserializeMsg v).bind fun m => (deserializeMsgs t).map (m :: ·)

/-- `ContextManager._deserialize_context`. -/
def deserializeCtx (v : Jv) : Option Ctx :=
  match v with
  | .obj fields =>
    match jGet fields "user_id", jGet fields "session_id" with
    | some (.str uid), some (.str sid) =>
      let hist := match jGet fields "history" with
        | some h => h
        | none => .arr .nil
      match hist with
      | .arr items =>
        (deserializeMsgs items).bind fun history =>
          match (match jGet fields "metadata" with | some m => m | none => .obj .nil) with
          | .obj md => some ⟨String.mk uid, String.mk sid, history, md⟩
          | _ => none
      | _ => none
    | _, _ => none
  | _ => none

theorem parseTs_natDigits (t : Nat) : parseTs (natDigits t) = some t := by
  have h := readNat_natDigits t [] trivial
  rw [List.append_nil] at h
  simp [parseTs, h]

theorem deserializeMsg_serializeMsg (m : Msg) (hrole : roleValid m.role = true) :
    deserializeMsg (serializeMsg m) = some m := by
  obtain ⟨⟨cdata⟩, ⟨rdata⟩, tsf, md⟩ := m
  cases tsf with
  | none =>
    simp +decide [serializeMsg, deserializeMsg, jGet, pyTruthy] at hrole ⊢
    simp [hrole]
  | some t =>
    have hne := natDigits_ne_nil t
    simp +decide [serializeMsg, deserializeMsg, jGet, pyTruthy] at hrole ⊢
    simp [hrole, hne, parseTs_natDigits]

theorem deserializeMsgs_toJArr (l : List Msg)
    (hrole : ∀ m ∈ l, roleValid m.role = true) :
    deserializeMsgs (toJArr (l.map serializeMsg)) = some l := by
  induction l with
  | nil => rfl
  | cons m r ih =>
    have h1 := deserializeMsg_serializeMsg m (hrole m (by simp))
    have h2 := ih (fun x hx => hrole x (by simp [hx]))
    simp [toJArr, deserializeMsgs, h1, h2]

/-- C5: deserializing the serialized form of any valid ConversationContext
(roles among user/assistant/system; metadata JSON-safe by construction)
reproduces it exactly: same user id, session id, metadata map, and the same
message sequence with identical content, role, timestamp, and per-message
metadata. -/
theorem C5_serialize_roundtrip (c : Ctx)
    (hrole : ∀ m ∈ c.history, roleValid m.role = true) :
    deserializeCtx (serializeCtx c) = some c := by
  have hmsgs := deserializeMsgs_toJArr c.history hrole
  simp +decide [serializeCtx, deserializeCtx, jGet, hmsgs]

/-- C5, witness: the round trip evaluated on a concrete two-message context. -/
theorem C5_serialize_roundtrip_witness :
    deserializeCtx (serializeCtx
      ⟨"alice", "session_alice",
        [⟨"hello", "user", some 5, .null⟩,
         ⟨"hi there", "assistant", none, .obj (.cons "k".data (.num 2) .nil)⟩],
        .cons "conversation_id".data (.str "7".data) .nil⟩) =
    some ⟨"alice", "session_alice",
      [⟨"hello", "user", some 5, .null⟩,
       ⟨"hi there", "assistant", none, .obj (.cons "k".data (.num 2) .nil)⟩],
      .cons "conversation_id".data (.str "7".data) .nil⟩ :=
  C5_serialize_roundtrip _ (by decide)

/-! ## PersistentStore (`database/models.py`, `database/manager.py`)

Rows carry `Nat` ids standing for the UUID primary keys: `uuid.uuid4()` is
modelled by drawing a fresh id from a counter (the property used is
freshness). `DateTime` columns are instants on the discrete clock; each
operation that stamps `utcnow`/`now` takes the current instant as an
argument. -/

/-- A row of `users`. -/
structure UserRow where
  id : Nat
  username : String
  deriving DecidableEq

/-- A row of `sessions` (`session_token` is the lookup key). -/
structure SessionRow where
  id : Nat
  userId : Nat
  token : String
  deriving DecidableEq

/-- A row of `conversations`. `models.Conversation` defines no `is_active`
column — the columns are id, session_id, title, created_at, updated_at,
message_count, summary, meta_data. -/
structure ConvRow where
  id : Nat
  sessionId : Nat
  title : Option String
  messageCount : Nat
  createdAt : Nat
  updatedAt : Nat
  deriving DecidableEq

/-- A row of `messages` (the columns the coordinators read and write). -/
structure MsgRow where
  id : Nat
  convId : Nat
  role : String
  content : String
  timestamp : Nat
  metadata : Jv
  deriving DecidableEq

/-- The durable store, with the fresh-id counter. -/
structure Db where
  users : List UserRow
  sessions : List SessionRow
  convs : List ConvRow
  msgs : List MsgRow
  nextId : Nat
  deriving DecidableEq

/-- `DatabaseManager.get_user_by_username`. -/
def getUserByUsername (db : Db) (username : String) : Option UserRow :=
  db.users.find? (fun u => u.username == username)

/-- `DatabaseManager.create_user`. -/
def createUser (db : Db) (username : String) : UserRow × Db :=
  let u : UserRow := ⟨db.nextId, username⟩
  (u, { db with users := db.users ++ [u], nextId := db.nextId + 1 })

/-- `DatabaseManager.get_or_create_user`: read then create. -/
def getOrCreateUser (db : Db) (username : String) : UserRow × Db :=
  match getUserByUsername db username with
  | some u => (u, db)
  | none => createUser db username

/-- `DatabaseManager.get_session_by_id` (looks up by `session_token`). -/
def getSessionById (db : Db) (token : String) : Option SessionRow :=
  db.sessions.find? (fun s => s.token == token)

/-- `DatabaseManager.create_session`. -/
def createSession (db : Db) (userId : Nat) (token : String) : SessionRow × Db :=
  let s : SessionRow := ⟨db.nextId, userId, token⟩
  (s, { db with sessions := db.sessions ++ [s], nextId := db.nextId + 1 })

/-- `DatabaseManager.get_or_create_session`. -/
def getOrCreateSession (db : Db) (userId : Nat) (token : String) : SessionRow × Db :=
  match getSessionById db token with
  | some s => (s, db)
  | none => createSession db userId token

/-- `DatabaseManager.add_message`: insert the row (timestamp defaults to the
current instant) and increment the owning conversation's `message_count`. -/
def dbAddMessage (db : Db) (now : Nat) (convId : Nat) (role content : String)
    (metadata : Jv) : MsgRow × Db :=
  let msg : MsgRow := ⟨db.nextId, convId, role, content, now, metadata⟩
  (msg,
   { db with
       msgs := db.msgs ++ [msg],
       convs := db.convs.map fun c =>
         if c.id == convId then { c with messageCount := c.messageCount + 1 } else c,
       nextId := db.nextId + 1 })

/-- `DatabaseManager.get_conversation_messages`: filter by conversation,
order by timestamp ascending, and apply the limit — which, via Python's
`if limit:`, is a no-op when the limit is 0 or absent. -/
def getConversationMessages (db : Db) (convId : Nat) (limit : Option Nat) :
    List MsgRow :=
  let sorted := (db.msgs.filter (fun m => m.convId == convId)).mergeSort
    (fun a b => a.timestamp ≤ b.timestamp)
  match limit with
  | some l => if l ≠ 0 then sorted.take l else sorted
  | none => sorted

/-- `DatabaseManager.update_conversation_message_count`: recompute the count
and stamp `updated_at`. -/
def updateConvMessageCount (db : Db) (now : Nat) (convId : Nat) : Db :=
  { db with
      convs := db.convs.map fun c =>
        if c.id == convId then
          { c with
              messageCount := (db.msgs.filter (fun m => m.convId == convId)).length,
              updatedAt := now }
        else c }

/-! ### The two get-or-create-conversation implementations -/

/-- The primary-path query of `ContextManager._get_or_create_conversation`
(`context_manager.py` lines 296-300). It filters on
`Conversation.is_active == True`, but `models.Conversation` defines no
`is_active` column, so building the filter raises `AttributeError` before
the query can run; the surrounding `except` then always takes the fallback
branch. The raised error is the `.error` value. -/
def ctxRecentConversationQuery : Except Unit (Option ConvRow) := .error ()

/-- `ContextManager._get_or_create_conversation`: because the primary query
raises (see `ctxRecentConversationQuery`), every call inserts a fresh
`Conversation` row via the fallback branch and returns it. -/
def ctxGetOrCreateConversation (db : Db) (sessionId : Nat) (now : Nat) :
    ConvRow × Db :=
  match ctxRecentConversationQuery with
  | .ok (some c) => (c, db)
  | .ok none =>
    let c : ConvRow :=
      ⟨db.nextId, sessionId, some ("Conversation " ++ String.mk (natDigits now)), 0, now, now⟩
    (c, { db with convs := db.convs ++ [c], nextId := db.nextId + 1 })
  | .error _ =>
    let c : ConvRow := ⟨db.nextId, sessionId, none, 0, now, now⟩
    (c, { db with convs := db.convs ++ [c], nextId := db.nextId + 1 })

/-- The reuse query of `MemoryManager._get_or_create_conversation`
(`memory.py` lines 400-404): conversations of the session created within
the last 24 hours (86400 seconds), most recently created first; `none`
when there is no match. -/
def memRecentConversation (db : Db) (sessionId : Nat) (now : Nat) : Option ConvRow :=
  let cands := db.convs.filter
    (fun c => c.sessionId == sessionId && decide (now ≤ c.createdAt + 86400))
  cands.foldl
    (fun acc c =>
      match acc with
      | none => some c
      | some b => if b.createdAt < c.createdAt then some c else some b)
    none

/-- `MemoryManager._get_or_create_conversation`: reuse a recent conversation
of the session, else create one. -/
def memGetOrCreateConversation (db : Db) (sessionId : Nat) (now : Nat) :
    ConvRow × Db :=
  match memRecentConversation db sessionId now with
  | some c => (c, db)
  | none =>
    let c : ConvRow :=
      ⟨db.nextId, sessionId, some ("Conversation " ++ String.mk (natDigits now)), 0, now, now⟩
    (c, { db with convs := db.convs ++ [c], nextId := db.nextId + 1 })

/-- C2: the spec calls `getOrCreateActiveConversation` idempotent, and the
code's own comment says it looks for an active conversation of the last 24
hours — but `ContextManager._get_or_create_conversation` filters on the
nonexistent `Conversation.is_active` column, so the lookup raises and the
fallback inserts a fresh row on every call: for every database state and
session, two consecutive calls return two distinct conversation ids. -/
theorem C2_ctx_two_calls_create_distinct (db : Db) (sid : Nat) (now1 now2 : Nat) :
    (ctxGetOrCreateConversation db sid now1).1.id = db.nextId ∧
    (ctxGetOrCreateConversation
        (ctxGetOrCreateConversation db sid now1).2 sid now2).1.id = db.nextId + 1 ∧
    (ctxGetOrCreateConversation db sid now1).1.id ≠
      (ctxGetOrCreateConversation
        (ctxGetOrCreateConversation db sid now1).2 sid now2).1.id := by
  refine ⟨rfl, rfl, ?_⟩
  show db.nextId ≠ db.nextId + 1
  omega

/-- The `MemoryManager` variant of the same operation, which has no
`is_active` filter, is idempotent as the spec intends: when the first call
creates a conversation, a second call within 24 hours (with no other
writers) returns the same row and adds no new row. -/
theorem mem_getOrCreate_idempotent (db : Db) (sid : Nat) (now1 now2 : Nat)
    (hfirst : memRecentConversation db sid now1 = none)
    (h12 : now1 ≤ now2) (h24 : now2 ≤ now1 + 86400) :
    (memGetOrCreateConversation
        (memGetOrCreateConversation db sid now1).2 sid now2).1 =
      (memGetOrCreateConversation db sid now1).1 ∧
    (memGetOrCreateConversation
        (memGetOrCreateConversation db sid now1).2 sid now2).2 =
      (memGetOrCreateConversation db sid now1).2 := by
  have hfilter : db.convs.filter
      (fun c => c.sessionId == sid && decide (now1 ≤ c.createdAt + 86400)) = [] := by
    cases hf : db.convs.filter
        (fun c => c.sessionId == sid && decide (now1 ≤ c.createdAt + 86400)) with
    | nil => rfl
    | cons a l =>
      exfalso
      rw [memRecentConversation] at hfirst
      simp only [hf, List.foldl_cons] at hfirst
      have key : ∀ (acc : ConvRow) (rest : List ConvRow),
          rest.foldl
            (fun acc c =>
              match acc with
              | none => some c
              | some b => if b.createdAt < c.createdAt then some c else some b)
            (some acc) ≠ none := by
        intro acc rest
        induction rest generalizing acc with
        | nil => simp
        | cons x xs ih =>
          simp only [List.foldl_cons]
          split <;> apply ih
      exact key a l hfirst
  have hfilter2 : ∀ c ∈ db.convs,
      ¬ ((c.sessionId == sid && decide (now2 ≤ c.createdAt + 86400)) = true) := by
    intro c hc hcm
    have h1 : (c.sessionId == sid && decide (now1 ≤ c.createdAt + 86400)) = true := by
      simp only [Bool.and_eq_true, decide_eq_true_eq] at hcm ⊢
      exact ⟨hcm.1, by omega⟩
    have hmem : c ∈ db.convs.filter
        (fun c => c.sessionId == sid && decide (now1 ≤ c.createdAt + 86400)) :=
      List.mem_filter.mpr ⟨hc, h1⟩
    simp [hfilter] at hmem
  have e1 : memGetOrCreateConversation db sid now1 =
      (⟨db.nextId, sid, some ("Conversation " ++ String.mk (natDigits now1)), 0, now1, now1⟩,
       { db with
           convs := db.convs ++
             [⟨db.nextId, sid, some ("Conversation " ++ String.mk (natDigits now1)),
               0, now1, now1⟩],
           nextId := db.nextId + 1 }) := by
    rw [memGetOrCreateConversation, hfirst]
  have hsplit : (db.convs ++
        [(⟨db.nextId, sid, some ("Conversation " ++ String.mk (natDigits now1)),
          0, now1, now1⟩ : ConvRow)]).filter
      (fun c => c.sessionId == sid && decide (now2 ≤ c.createdAt + 86400)) =
      [⟨db.nextId, sid, some ("Conversation " ++ String.mk (natDigits now1)),
        0, now1, now1⟩] := by
    rw [List.filter_append]
    have h1 : db.convs.filter
        (fun c => c.sessionId == sid && decide (now2 ≤ c.createdAt + 86400)) = [] := by
      cases hf : db.convs.filter
          (fun c => c.sessionId == sid && decide (now2 ≤ c.createdAt + 86400)) with
      | nil => rfl
      | cons a l =>
        exfalso
        have ha : a ∈ db.convs.filter
            (fun c => c.sessionId == sid && decide (now2 ≤ c.createdAt + 86400)) := by
          rw [hf]; simp
        have := List.mem_filter.mp ha
        exact hfilter2 a this.1 this.2
    rw [h1, List.nil_append]
    simp [h24]
  have hrec2 : memRecentConversation
      { db with
          convs := db.convs ++
            [⟨db.nextId, sid, some ("Conversation " ++ String.mk (natDigits now1)),
              0, now1, now1⟩],
          nextId := db.nextId + 1 } sid now2 =
      some ⟨db.nextId, sid, some ("Conversation " ++ String.mk (natDigits now1)),
        0, now1, now1⟩ := by
    rw [memRecentConversation]
    simp only [hsplit, List.foldl_cons, List.foldl_nil]
  rw [e1]
  rw [memGetOrCreateConversation, hrec2]
  exact ⟨rfl, rfl⟩

/-! ## ContextCoordinator (`context_manager.py`, `ContextManager`)

The three tiers are explicit: a process-local cache with per-key expiry
instants, the raw Redis client (`absent` models `redis_client is None`,
`failing` a client whose calls raise — each caught where the source catches
them), and the durable store (`down` models a `DatabaseManager` whose calls
raise, handled by the catch-all of `_load_from_db`). `_compress_data` /
`_decompress_data` are identity in the source and are therefore omitted.
The detached durable write scheduled by `update_context`
(`asyncio.create_task(self._save_to_db_async(...))`) is not part of the
synchronous transition; the state ends as it is before that task runs. -/

/-- Configuration fixed at construction (`max_history`, `cache_ttl`). -/
structure CMConfig where
  maxHistory : Nat
  cacheTtl : Nat
  deriving DecidableEq

/-- The raw Redis client used by the context manager. -/
inductive RedisTier where
  | absent : RedisTier
  | failing : RedisTier
  | up (store : List (String × String)) : RedisTier
  deriving DecidableEq

/-- The durable tier. -/
inductive DbTier where
  | down : DbTier
  | up (db : Db) : DbTier
  deriving DecidableEq

/-- Mutable state of a `ContextManager`. -/
structure CM where
  localCache : List (String × Ctx)
  localTtl : List (String × Nat)
  redis : RedisTier
  db : DbTier
  deriving DecidableEq

/-- `_check_local_cache` fused with the cache read that follows it on a hit:
returns the valid cached context, evicting an expired entry. -/
def checkLocalCache (cm : CM) (now : Nat) (uid : String) : Option Ctx × CM :=
  match kvGet cm.localCache uid with
  | none => (none, cm)
  | some ctx =>
    match kvGet cm.localTtl uid with
    | some ttl =>
      if now > ttl then
        (none, { cm with localCache := kvErase cm.localCache uid,
                         localTtl := kvErase cm.localTtl uid })
      else (some ctx, cm)
    | none => (some ctx, cm)

/-- `_set_local_cache`. -/
def setLocalCache (cfg : CMConfig) (cm : CM) (now : Nat) (uid : String) (ctx : Ctx) : CM :=
  { cm with
      localCache := kvSet cm.localCache uid ctx,
      localTtl := kvSet cm.localTtl uid (now + cfg.cacheTtl) }

/-- `_get_from_redis_cache`: every failure (client raising, JSON decode
error, deserialization error) is caught and treated as a miss. -/
def getFromRedisCache (cm : CM) (uid : String) : Option Ctx :=
  match cm.redis with
  | .absent => none
  | .failing => none
  | .up store =>
    match kvGet store ("context:" ++ uid) with
    | none => none
    | some data =>
      match jloads data with
      | none => none
      | some j => deserializeCtx j

/-- `_set_redis_cache`: a raising client is caught and ignored. -/
def setRedisCache (cm : CM) (uid : String) (ctx : Ctx) : CM :=
  match cm.redis with
  | .up store =>
    { cm with redis := .up (kvSet store ("context:" ++ uid)
        (jdumps (serializeCtx ctx))) }
  | _ => cm

/-- `_load_from_db`: on a reachable store, get-or-create user, session
(token `session_<userId>`) and conversation, then read that conversation's
recent messages; any failure falls back to a fresh empty context whose
session id is minted from the clock. -/
def loadFromDb (cfg : CMConfig) (cm : CM) (now : Nat) (uid : String) : Ctx × CM :=
  match cm.db with
  | .down =>
    (⟨uid, "session_" ++ String.mk (natDigits now), [],
       .cons "last_updated".data (.str (natDigits now)) .nil⟩, cm)
  | .up db =>
    let p1 := getOrCreateUser db uid
    let sid := "session_" ++ uid
    let p2 := getOrCreateSession p1.2 p1.1.id sid
    let p3 := ctxGetOrCreateConversation p2.2 p2.1.id now
    let rows := getConversationMessages p3.2 p3.1.id (some cfg.maxHistory)
    let history := rows.map fun r => (⟨r.content, r.role, some r.timestamp, r.metadata⟩ : Msg)
    (⟨uid, sid, history,
       .cons "conversation_id".data (.str (natDigits p3.1.id))
        (.cons "session_id".data (.str (natDigits p2.1.id))
          (.cons "message_count".data (.num p3.1.messageCount)
            (.cons "last_updated".data (.str (natDigits now)) .nil)))⟩,
     { cm with db := .up p3.2 })

/-- The body of `get_context`: local tier, then distributed tier, then the
durable load, populating the faster tiers on the way out. -/
def getContextBody (cfg : CMConfig) (cm : CM) (now : Nat) (uid : String) : Ctx × CM :=
  match checkLocalCache cm now uid with
  | (some ctx, cm1) => (ctx, cm1)
  | (none, cm1) =>
    match getFromRedisCache cm1 uid with
    | some ctx => (ctx, setLocalCache cfg cm1 now uid ctx)
    | none =>
      let p := loadFromDb cfg cm1 now uid
      let cm3 := setLocalCache cfg p.2 now uid p.1
      (p.1, setRedisCache cm3 uid p.1)

/-- `get_context`: the outer `try/except` would re-raise a body failure as
`ContextException`, but every tier access inside the body catches its own
failures, so the body is total and the error branch is unreachable. -/
def get_context (cfg : CMConfig) (cm : CM) (now : Nat) (uid : String) :
    Except String (Ctx × CM) :=
  .ok (getContextBody cfg cm now uid)

/-- Python `xs[-k:]` for a non-negative `k`: the last `k` elements — except
that `xs[-0:]` is the whole list. -/
def pySliceLast (k : Nat) (xs : List α) : List α :=
  if k = 0 then xs else xs.drop (xs.length - k)

/-- The body of `update_context`: fetch, append the pair, truncate to the
last `2 * maxHistory` entries, refresh the metadata, write through to the
local and distributed caches. The durable write is detached and not part
of this transition. -/
def updateContextBody (cfg : CMConfig) (cm : CM) (now : Nat) (uid : String)
    (m r : Msg) : CM :=
  let p := getContextBody cfg cm now uid
  let h2 := p.1.history ++ [m, r]
  let h3 := if h2.length > cfg.maxHistory * 2 then pySliceLast (cfg.maxHistory * 2) h2 else h2
  let md1 := jSet p.1.metadata "last_updated".data (.str (natDigits now))
  let md2 := jSet md1 "message_count".data (.num h3.length)
  let ctx' : Ctx := { p.1 with history := h3, metadata := md2 }
  let cm2 := setLocalCache cfg p.2 now uid ctx'
  setRedisCache cm2 uid ctx'

/-- `update_context` (total body, as for `get_context`). -/
def update_context (cfg : CMConfig) (cm : CM) (now : Nat) (uid : String)
    (m r : Msg) : Except String CM :=
  .ok (updateContextBody cfg cm now uid m r)

/-- The cache removals of `clear_context` (the durable "clear",
`_clear_from_db`, intentionally deletes nothing). -/
def clearBody (cm : CM) (uid : String) : CM :=
  let cm1 := { cm with localCache := kvErase cm.localCache uid,
                       localTtl := kvErase cm.localTtl uid }
  match cm1.redis with
  | .up store => { cm1 with redis := .up (kvErase store ("context:" ++ uid)) }
  | _ => cm1

/-- `clear_context`: the only statement in its `try` that can raise is the
raw `redis_client.delete`, re-raised as `ContextException`. -/
def clear_context (cm : CM) (uid : String) : Except String CM :=
  match cm.redis with
  | .failing => .error "ContextException: Context clearing failed"
  | _ => .ok (clearBody cm uid)

/-- C1: for every user id, `get_context` returns a ConversationContext and
never propagates an exception — every tier access inside it catches its own
failures — and when the local cache has no entry while the Redis tier and
the durable store are both unavailable or raising, the returned context has
empty history. -/
theorem C1_get_context_never_fails (cfg : CMConfig) (cm : CM) (now : Nat) (uid : String) :
    (∃ c cm', get_context cfg cm now uid = .ok (c, cm')) ∧
    (kvGet cm.localCache uid = none →
      (cm.redis = .absent ∨ cm.redis = .failing) →
      cm.db = .down →
      (getContextBody cfg cm now uid).1.history = []) := by
  refine ⟨⟨_, _, rfl⟩, ?_⟩
  intro hloc hredis hdb
  have hchk : checkLocalCache cm now uid = (none, cm) := by
    rw [checkLocalCache, hloc]
  have hred : getFromRedisCache cm uid = none := by
    rcases hredis with h | h <;> rw [getFromRedisCache, h]
  simp [getContextBody, hchk, hred, loadFromDb, hdb]

/-- C1, witness: a state with an empty local cache, a raising Redis client
and an unreachable durable store still yields a context, with empty
history. -/
theorem C1_get_context_never_fails_witness :
    (getContextBody ⟨20, 3600⟩ ⟨[], [], .failing, .down⟩ 0 "u1").1.history = [] :=
  (C1_get_context_never_fails ⟨20, 3600⟩ ⟨[], [], .failing, .down⟩ 0 "u1").2
    rfl (Or.inr rfl) rfl

/-- C6: `clear_context` removes exactly the LocalCache entry and the
DistributedCache entry for the user's key — all other cache keys keep
their values — and leaves the durable store untouched (soft clear). -/
theorem C6_clear_context_soft (cm : CM) (uid : String) (hred : cm.redis ≠ .failing) :
    ∃ cm', clear_context cm uid = .ok cm' ∧
      cm'.db = cm.db ∧
      kvGet cm'.localCache uid = none ∧
      kvGet cm'.localTtl uid = none ∧
      (∀ u', u' ≠ uid →
        kvGet cm'.localCache u' = kvGet cm.localCache u' ∧
        kvGet cm'.localTtl u' = kvGet cm.localTtl u') ∧
      (∀ store, cm.redis = .up store →
        cm'.redis = .up (kvErase store ("context:" ++ uid)) ∧
        kvGet (kvErase store ("context:" ++ uid)) ("context:" ++ uid) = none ∧
        ∀ k, k ≠ "context:" ++ uid →
          kvGet (kvErase store ("context:" ++ uid)) k = kvGet store k) ∧
      (cm.redis = .absent → cm'.redis = .absent) := by
  cases hcl : cm.redis with
  | failing => exact absurd hcl hred
  | absent =>
    refine ⟨clearBody cm uid, ?_, ?_, ?_, ?_, ?_, ?_, ?_⟩
    · rw [clear_context, hcl]
    · simp [clearBody, hcl]
    · simp [clearBody, hcl, kvGet_kvErase]
    · simp [clearBody, hcl, kvGet_kvErase]
    · intro u' hu'
      constructor <;> simp [clearBody, hcl, kvGet_kvErase_ne _ (Ne.symm hu')]
    · intro store hstore; simp at hstore
    · intro _; simp [clearBody, hcl]
  | up store =>
    refine ⟨clearBody cm uid, ?_, ?_, ?_, ?_, ?_, ?_, ?_⟩
    · rw [clear_context, hcl]
    · simp [clearBody, hcl]
    · simp [clearBody, hcl, kvGet_kvErase]
    · simp [clearBody, hcl, kvGet_kvErase]
    · intro u' hu'
      constructor <;> simp [clearBody, hcl, kvGet_kvErase_ne _ (Ne.symm hu')]
    · intro store' hstore
      cases hstore
      refine ⟨by simp [clearBody, hcl], kvGet_kvErase _ _, ?_⟩
      intro k hk
      exact kvGet_kvErase_ne _ (Ne.symm hk)
    · intro habs; simp at habs

/-- C6, witness: the frame property at a concrete state holding one other
user's entries. -/
theorem C6_clear_context_soft_witness :
    ∃ cm', clear_context
        ⟨[("u", ⟨"u", "s", [], .nil⟩), ("v", ⟨"v", "s2", [], .nil⟩)],
         [("u", 9), ("v", 9)],
         .up [("context:u", "x"), ("context:v", "y")],
         .down⟩ "u" = .ok cm' ∧
      cm'.db = DbTier.down ∧
      kvGet cm'.localCache "u" = none ∧
      kvGet cm'.localTtl "u" = none ∧
      (∀ u', u' ≠ "u" →
        kvGet cm'.localCache u' =
          kvGet [("u", (⟨"u", "s", [], .nil⟩ : Ctx)), ("v", ⟨"v", "s2", [], .nil⟩)] u' ∧
        kvGet cm'.localTtl u' = kvGet [("u", 9), ("v", 9)] u') ∧
      (∀ store, RedisTier.up [("context:u", "x"), ("context:v", "y")] = .up store →
        cm'.redis = .up (kvErase store ("context:" ++ "u")) ∧
        kvGet (kvErase store ("context:" ++ "u")) ("context:" ++ "u") = none ∧
        ∀ k, k ≠ "context:" ++ "u" →
          kvGet (kvErase store ("context:" ++ "u")) k = kvGet store k) ∧
      (RedisTier.up [("context:u", "x"), ("context:v", "y")] = .absent →
        cm'.redis = .absent) :=
  C6_clear_context_soft _ "u" (by simp)

theorem setRedisCache_localCache (cm : CM) (uid : String) (ctx : Ctx) :
    (setRedisCache cm uid ctx).localCache = cm.localCache := by
  obtain ⟨lc, lt, red, db⟩ := cm
  cases red <;> rfl

theorem setRedisCache_localTtl (cm : CM) (uid : String) (ctx : Ctx) :
    (setRedisCache cm uid ctx).localTtl = cm.localTtl := by
  obtain ⟨lc, lt, red, db⟩ := cm
  cases red <;> rfl

theorem getContextBody_local_hit (cfg : CMConfig) (cm : CM) (now : Nat) (uid : String)
    (ctx : Ctx) (t : Nat) (hc : kvGet cm.localCache uid = some ctx)
    (ht : kvGet cm.localTtl uid = some t) (hnow : ¬ now > t) :
    getContextBody cfg cm now uid = (ctx, cm) := by
  rw [getContextBody, checkLocalCache, hc, ht]
  simp [hnow]

/-- The history written back by one `update_context`, as a function of the
fetched history. -/
def truncatedHist (mh : Nat) (hist : List Msg) (m r : Msg) : List Msg :=
  if (hist ++ [m, r]).length > mh * 2 then pySliceLast (mh * 2) (hist ++ [m, r])
  else hist ++ [m, r]

/-- The truncation always keeps a suffix, so the new pair stays at the end. -/
theorem truncatedHist_ends (mh : Nat) (hist : List Msg) (m r : Msg) :
    ∃ pre, truncatedHist mh hist m r = pre ++ [m, r] := by
  rw [truncatedHist]
  by_cases hlen : (hist ++ [m, r]).length > mh * 2
  · rw [if_pos hlen]
    by_cases hmh : mh = 0
    · exact ⟨hist, by simp [pySliceLast, hmh]⟩
    · have hk : mh * 2 ≠ 0 := by omega
      rw [pySliceLast, if_neg hk]
      have hle : (hist ++ [m, r]).length - mh * 2 ≤ hist.length := by
        simp [List.length_append]; omega
      rw [List.drop_append_of_le_length hle]
      exact ⟨_, rfl⟩
  · rw [if_neg hlen]; exact ⟨hist, rfl⟩

/-- With a positive bound the truncated length is the expected minimum. -/
theorem truncatedHist_length (mh : Nat) (hmh : 1 ≤ mh) (hist : List Msg) (m r : Msg) :
    (truncatedHist mh hist m r).length = min (hist.length + 2) (mh * 2) := by
  rw [truncatedHist]
  by_cases hlen : (hist ++ [m, r]).length > mh * 2
  · rw [if_pos hlen, pySliceLast, if_neg (by omega)]
    simp only [List.length_drop, List.length_append, List.length_cons,
      List.length_nil] at *
    omega
  · rw [if_neg hlen]
    simp only [List.length_append, List.length_cons, List.length_nil] at *
    omega

/-- One `update_context` writes to the local cache a context whose history
is the truncated extension of the fetched history, with a fresh expiry. -/
theorem updateContextBody_cache (cfg : CMConfig) (cm : CM) (now : Nat) (uid : String)
    (m r : Msg) (ctx : Ctx) (cm1 : CM)
    (hget : getContextBody cfg cm now uid = (ctx, cm1)) :
    ∃ ctx' : Ctx,
      (updateContextBody cfg cm now uid m r).localCache = kvSet cm1.localCache uid ctx' ∧
      (updateContextBody cfg cm now uid m r).localTtl =
        kvSet cm1.localTtl uid (now + cfg.cacheTtl) ∧
      ctx'.history = truncatedHist cfg.maxHistory ctx.history m r := by
  refine ⟨{ ctx with
      history := truncatedHist cfg.maxHistory ctx.history m r,
      metadata := jSet (jSet ctx.metadata "last_updated".data (.str (natDigits now)))
        "message_count".data
        (.num (truncatedHist cfg.maxHistory ctx.history m r).length) }, ?_, ?_, rfl⟩
  · rw [updateContextBody, hget]
    simp only [setRedisCache_localCache, setLocalCache, truncatedHist]
  · rw [updateContextBody, hget]
    simp only [setRedisCache_localTtl, setLocalCache, truncatedHist]

/-- C3 (amended): `update_context(user, m, r)` followed immediately by
`get_context(user)` returns a context whose history ends with `m` then `r`
in that order; messages are stored verbatim, so when the caller supplies
timestamps with `r`'s not below `m`'s, the assistant entry's timestamp is
greater than or equal to the user entry's. -/
theorem C3_update_then_get (cfg : CMConfig) (cm : CM) (now : Nat) (uid : String)
    (m r : Msg) (a b : Nat)
    (hm : m.timestamp = some a) (hr : r.timestamp = some b) (hab : a ≤ b) :
    ∃ cm2 ctx2 cm3 pre,
      update_context cfg cm now uid m r = .ok cm2 ∧
      get_context cfg cm2 now uid = .ok (ctx2, cm3) ∧
      ctx2.history = pre ++ [m, r] ∧
      ctx2.history.getLast? = some r ∧
      (ctx2.history.getLast?.map Msg.timestamp) = some (some b) ∧
      m.timestamp = some a ∧ a ≤ b := by
  obtain ⟨ctx0, cm1, hget0⟩ :
      ∃ ctx0 cm1, getContextBody cfg cm now uid = (ctx0, cm1) := ⟨_, _, rfl⟩
  obtain ⟨ctx', hlc, hlt, hh⟩ := updateContextBody_cache cfg cm now uid m r ctx0 cm1 hget0
  have hhit : getContextBody cfg (updateContextBody cfg cm now uid m r) now uid
      = (ctx', updateContextBody cfg cm now uid m r) := by
    apply getContextBody_local_hit
    · rw [hlc]; exact kvGet_kvSet _ _ _
    · rw [hlt]; exact kvGet_kvSet _ _ _
    · omega
  obtain ⟨pre, hpre⟩ := truncatedHist_ends cfg.maxHistory ctx0.history m r
  refine ⟨updateContextBody cfg cm now uid m r, ctx', updateContextBody cfg cm now uid m r,
    pre, rfl, ?_, ?_, ?_, ?_, hm, hab⟩
  · rw [get_context, hhit]
  · rw [hh, hpre]
  · rw [hh, hpre, show pre ++ [m, r] = (pre ++ [m]) ++ [r] by simp, List.getLast?_concat]
  · rw [hh, hpre, show pre ++ [m, r] = (pre ++ [m]) ++ [r] by simp, List.getLast?_concat]
    simp [hr]

/-- C3, witness: the amended statement at a concrete cold state with
timestamps 1 then 2. -/
theorem C3_update_then_get_witness :
    ∃ cm2 ctx2 cm3 pre,
      update_context ⟨20, 3600⟩ ⟨[], [], .absent, .down⟩ 100 "u"
        ⟨"hi", "user", some 1, .null⟩ ⟨"yo", "assistant", some 2, .null⟩ = .ok cm2 ∧
      get_context ⟨20, 3600⟩ cm2 100 "u" = .ok (ctx2, cm3) ∧
      ctx2.history = pre ++ [⟨"hi", "user", some 1, .null⟩, ⟨"yo", "assistant", some 2, .null⟩] ∧
      ctx2.history.getLast? = some ⟨"yo", "assistant", some 2, .null⟩ ∧
      (ctx2.history.getLast?.map Msg.timestamp) = some (some 2) ∧
      (⟨"hi", "user", some 1, .null⟩ : Msg).timestamp = some 1 ∧ 1 ≤ 2 :=
  C3_update_then_get ⟨20, 3600⟩ ⟨[], [], .absent, .down⟩ 100 "u" _ _ 1 2 rfl rfl
    (by omega)

/-- A cold coordinator state: empty caches, no Redis client, durable store
unreachable. -/
def cmCold : CM := ⟨[], [], .absent, .down⟩

/-- C3, counterexample: the claim asserts the assistant timestamp is ≥ the
user timestamp for *every* pair of messages, but `update_context` stores
the caller's messages verbatim and no caller or callee orders the
timestamps: with a user message stamped 5 and an assistant response
stamped 3, the history ends with the pair while the assistant entry's
timestamp is strictly below the user entry's. -/
theorem C3_timestamp_counterexample :
    (getContextBody ⟨20, 3600⟩
        (updateContextBody ⟨20, 3600⟩ cmCold 100 "u"
          ⟨"hello", "user", some 5, .null⟩ ⟨"resp", "assistant", some 3, .null⟩)
        100 "u").1.history =
      [⟨"hello", "user", some 5, .null⟩, ⟨"resp", "assistant", some 3, .null⟩] ∧
    (Msg.timestamp ⟨"hello", "user", some 5, .null⟩ = some 5) ∧
    (Msg.timestamp ⟨"resp", "assistant", some 3, .null⟩ = some 3) ∧
    ¬ (5 : Nat) ≤ 3 := by
  refine ⟨?_, rfl, rfl, by omega⟩
  simp +decide [cmCold, getContextBody, updateContextBody, checkLocalCache,
    getFromRedisCache, setLocalCache, setRedisCache, loadFromDb, kvGet, kvSet,
    kvErase, pySliceLast, jSet, natDigits, digitChar]

/-- The N-fold iteration of `update_context`, appending the k-th user
message and assistant response at step k. -/
def updateN (cfg : CMConfig) (cm : CM) (now : Nat) (uid : String)
    (f : Nat → Msg × Msg) : Nat → CM
  | 0 => cm
  | n + 1 => updateContextBody cfg (updateN cfg cm now uid f n) now uid (f n).1 (f n).2

/-- C4 (amended): starting from a cached context with empty history, after
N calls to `update_context` under a configured bound `maxHistory ≥ 1`
(B = 2*maxHistory messages), the cached history length is
`min (2N) (2*maxHistory)`. -/
theorem C4_history_length (cfg : CMConfig) (cm : CM) (now : Nat) (uid : String)
    (f : Nat → Msg × Msg) (ctx0 : Ctx) (t0 : Nat)
    (hmh : 1 ≤ cfg.maxHistory)
    (hc : kvGet cm.localCache uid = some ctx0)
    (hh : ctx0.history = [])
    (ht : kvGet cm.localTtl uid = some t0)
    (hnow : ¬ now > t0) :
    ∀ N, ∃ ctx : Ctx,
      kvGet (updateN cfg cm now uid f N).localCache uid = some ctx ∧
      ctx.history.length = min (2 * N) (2 * cfg.maxHistory) := by
  suffices h : ∀ N, ∃ ctx t,
      kvGet (updateN cfg cm now uid f N).localCache uid = some ctx ∧
      kvGet (updateN cfg cm now uid f N).localTtl uid = some t ∧
      ¬ now > t ∧
      ctx.history.length = min (2 * N) (2 * cfg.maxHistory) by
    intro N
    obtain ⟨ctx, t, h1, _, _, h4⟩ := h N
    exact ⟨ctx, h1, h4⟩
  intro N
  induction N with
  | zero =>
    refine ⟨ctx0, t0, hc, ht, hnow, ?_⟩
    simp [hh]
  | succ n ih =>
    obtain ⟨ctx, t, h1, h2, h3, h4⟩ := ih
    have hhit : getContextBody cfg (updateN cfg cm now uid f n) now uid
        = (ctx, updateN cfg cm now uid f n) :=
      getContextBody_local_hit cfg _ now uid ctx t h1 h2 h3
    obtain ⟨ctx', hlc, hlt, hhst⟩ :=
      updateContextBody_cache cfg (updateN cfg cm now uid f n) now uid
        (f n).1 (f n).2 ctx _ hhit
    refine ⟨ctx', now + cfg.cacheTtl, ?_, ?_, by omega, ?_⟩
    · rw [show updateN cfg cm now uid f (n + 1)
          = updateContextBody cfg (updateN cfg cm now uid f n) now uid (f n).1 (f n).2
          from rfl, hlc]
      exact kvGet_kvSet _ _ _
    · rw [show updateN cfg cm now uid f (n + 1)
          = updateContextBody cfg (updateN cfg cm now uid f n) now uid (f n).1 (f n).2
          from rfl, hlt]
      exact kvGet_kvSet _ _ _
    · rw [hhst, truncatedHist_length cfg.maxHistory hmh, h4]
      omega

/-- C4, witness: two updates under bound maxHistory = 1 leave exactly
min(4, 2) = 2 messages cached. -/
theorem C4_history_length_witness :
    ∃ ctx : Ctx,
      kvGet (updateN ⟨1, 3600⟩ ⟨[("u", ⟨"u", "s", [], .nil⟩)], [("u", 50)], .absent, .down⟩
        0 "u" (fun _ => (⟨"a", "user", some 1, .null⟩, ⟨"b", "assistant", some 2, .null⟩))
        2).localCache "u" = some ctx ∧
      ctx.history.length = min (2 * 2) (2 * 1) :=
  C4_history_length ⟨1, 3600⟩ ⟨[("u", ⟨"u", "s", [], .nil⟩)], [("u", 50)], .absent, .down⟩
    0 "u" (fun _ => (⟨"a", "user", some 1, .null⟩, ⟨"b", "assistant", some 2, .null⟩))
    ⟨"u", "s", [], .nil⟩ 50 (by decide) rfl rfl rfl (by decide) 2

/-- C4, counterexample: with `max_history = 0` the claim's bound B is 0,
but the truncation `history[-(0):]` in Python keeps the whole list, so one
update leaves 2 messages instead of min(2, 0) = 0. -/
theorem C4_zero_bound_counterexample :
    ((kvGet (updateN ⟨0, 3600⟩ ⟨[("u", ⟨"u", "s", [], .nil⟩)], [("u", 50)], .absent, .down⟩
        0 "u" (fun _ => (⟨"a", "user", some 1, .null⟩, ⟨"b", "assistant", some 2, .null⟩))
        1).localCache "u").map (fun ctx => ctx.history.length)) = some 2 ∧
    ¬ (2 : Nat) = min (2 * 1) (2 * 0) := by
  constructor
  · simp +decide [updateN, updateContextBody, getContextBody, checkLocalCache,
      getFromRedisCache, setLocalCache, setRedisCache, loadFromDb, kvGet, kvSet,
      kvErase, pySliceLast, jSet, natDigits, digitChar]
  · omega

theorem clearBody_db (cm : CM) (uid : String) : (clearBody cm uid).db = cm.db := by
  obtain ⟨lc, lt, red, db⟩ := cm
  cases red <;> rfl

theorem getOrCreateUser_frame (db : Db) (u : String) :
    (getOrCreateUser db u).2.msgs = db.msgs ∧
    (getOrCreateUser db u).2.convs = db.convs ∧
    (getOrCreateUser db u).2.sessions = db.sessions ∧
    db.nextId ≤ (getOrCreateUser db u).2.nextId ∧
    (∀ x ∈ db.users, x ∈ (getOrCreateUser db u).2.users) := by
  rw [getOrCreateUser]
  cases getUserByUsername db u with
  | some usr => exact ⟨rfl, rfl, rfl, le_refl _, fun x hx => hx⟩
  | none =>
    refine ⟨rfl, rfl, rfl, by simp [createUser], ?_⟩
    intro x hx
    simp [createUser]
    exact Or.inl hx

theorem getOrCreateSession_frame (db : Db) (userId : Nat) (tok : String) :
    (getOrCreateSession db userId tok).2.msgs = db.msgs ∧
    (getOrCreateSession db userId tok).2.convs = db.convs ∧
    (getOrCreateSession db userId tok).2.users = db.users ∧
    db.nextId ≤ (getOrCreateSession db userId tok).2.nextId ∧
    (∀ x ∈ db.sessions, x ∈ (getOrCreateSession db userId tok).2.sessions) := by
  rw [getOrCreateSession]
  cases getSessionById db tok with
  | some s => exact ⟨rfl, rfl, rfl, le_refl _, fun x hx => hx⟩
  | none =>
    refine ⟨rfl, rfl, rfl, by simp [createSession], ?_⟩
    intro x hx
    simp [createSession]
    exact Or.inl hx

theorem ctxGetOrCreateConversation_frame (db : Db) (sid : Nat) (now : Nat) :
    (ctxGetOrCreateConversation db sid now).1.id = db.nextId ∧
    (ctxGetOrCreateConversation db sid now).2.msgs = db.msgs ∧
    (ctxGetOrCreateConversation db sid now).2.users = db.users ∧
    (ctxGetOrCreateConversation db sid now).2.sessions = db.sessions ∧
    (∀ x ∈ db.convs, x ∈ (ctxGetOrCreateConversation db sid now).2.convs) := by
  refine ⟨rfl, rfl, rfl, rfl, ?_⟩
  intro x hx
  simp [ctxGetOrCreateConversation, ctxRecentConversationQuery]
  exact Or.inl hx

/-- Well-formed durable state: message rows only reference already-issued
conversation ids (which `uuid4`, modelled by the fresh-id counter,
guarantees). -/
def DbWf (db : Db) : Prop := ∀ m ∈ db.msgs, m.convId < db.nextId

theorem getConversationMessages_fresh (db : Db) (cid : Nat) (lim : Option Nat)
    (h : ∀ m ∈ db.msgs, m.convId ≠ cid) : getConversationMessages db cid lim = [] := by
  have hfil : db.msgs.filter (fun m => m.convId == cid) = [] := by
    cases hf : db.msgs.filter (fun m => m.convId == cid) with
    | nil => rfl
    | cons a l =>
      exfalso
      have ha : a ∈ db.msgs.filter (fun m => m.convId == cid) := by rw [hf]; simp
      have := List.mem_filter.mp ha
      exact h a this.1 (by simpa using this.2)
  rw [getConversationMessages.eq_def, hfil]
  cases lim with
  | none => simp
  | some l => by_cases hl : l ≠ 0 <;> simp [hl]

/-- C7 (amended): after `clear_context(u)`, the next `get_context(u)`
returns a context with empty history (the conversation-reuse query always
creates a fresh, empty conversation), whose session id is the
deterministic `session_<userId>` — the same value as before the clear, not
a newly generated one (a fresh id is minted only when the durable load
fails) — and every durable row that existed before the clear still
exists. -/
theorem setLocalCache_db (cfg : CMConfig) (cm : CM) (now : Nat) (uid : String) (ctx : Ctx) :
    (setLocalCache cfg cm now uid ctx).db = cm.db := rfl

theorem setRedisCache_db (cm : CM) (uid : String) (ctx : Ctx) :
    (setRedisCache cm uid ctx).db = cm.db := by
  obtain ⟨lc, lt, red, dbt⟩ := cm
  cases red <;> rfl

theorem C7_clear_then_get (cfg : CMConfig) (cm : CM) (uid : String) (now2 : Nat) (db : Db)
    (hdb : cm.db = .up db) (hwf : DbWf db) (hred : cm.redis ≠ .failing) :
    ∃ cm1, clear_context cm uid = .ok cm1 ∧
    ∃ ctx2 cm2, get_context cfg cm1 now2 uid = .ok (ctx2, cm2) ∧
      ctx2.history = [] ∧
      ctx2.session_id = "session_" ++ uid ∧
      ∃ db2, cm2.db = .up db2 ∧
        (∀ u ∈ db.users, u ∈ db2.users) ∧
        (∀ s ∈ db.sessions, s ∈ db2.sessions) ∧
        (∀ c ∈ db.convs, c ∈ db2.convs) ∧
        db2.msgs = db.msgs := by
  have hok : clear_context cm uid = .ok (clearBody cm uid) := by
    rw [clear_context]
    cases hcl : cm.redis with
    | failing => exact absurd hcl hred
    | absent => rfl
    | up store => rfl
  refine ⟨clearBody cm uid, hok, ?_⟩
  have hchk : checkLocalCache (clearBody cm uid) now2 uid = (none, clearBody cm uid) := by
    have hlc : kvGet (clearBody cm uid).localCache uid = none := by
      obtain ⟨lc, lt, red, dbt⟩ := cm
      cases red <;> simp [clearBody, kvGet_kvErase]
    rw [checkLocalCache, hlc]
  have hredmiss : getFromRedisCache (clearBody cm uid) uid = none := by
    obtain ⟨lc, lt, red, dbt⟩ := cm
    cases red with
    | absent => rfl
    | failing => rfl
    | up store => simp [clearBody, getFromRedisCache, kvGet_kvErase]
  have hdb1 : (clearBody cm uid).db = .up db := by rw [clearBody_db, hdb]
  obtain ⟨hu1, hu2, hu3, hu4, hu5⟩ := getOrCreateUser_frame db uid
  set p1 := getOrCreateUser db uid with hp1
  obtain ⟨hs1, hs2, hs3, hs4, hs5⟩ := getOrCreateSession_frame p1.2 p1.1.id ("session_" ++ uid)
  set p2 := getOrCreateSession p1.2 p1.1.id ("session_" ++ uid) with hp2
  obtain ⟨hc1, hc2, hc3, hc4, hc5⟩ := ctxGetOrCreateConversation_frame p2.2 p2.1.id now2
  set p3 := ctxGetOrCreateConversation p2.2 p2.1.id now2 with hp3
  have hfresh : getConversationMessages p3.2 p3.1.id (some cfg.maxHistory) = [] := by
    apply getConversationMessages_fresh
    intro mrow hm
    rw [hc2, hs1, hu1] at hm
    rw [hc1]
    have hlt1 := hwf mrow hm
    have hle := le_trans hu4 hs4
    omega
  have hload : loadFromDb cfg (clearBody cm uid) now2 uid =
      (⟨uid, "session_" ++ uid, [],
         .cons "conversation_id".data (.str (natDigits p3.1.id))
          (.cons "session_id".data (.str (natDigits p2.1.id))
            (.cons "message_count".data (.num p3.1.messageCount)
              (.cons "last_updated".data (.str (natDigits now2)) .nil)))⟩,
       { clearBody cm uid with db := .up p3.2 }) := by
    rw [loadFromDb, hdb1]
    simp only [← hp1, ← hp2, ← hp3, hfresh, List.map_nil]
  have hbody : getContextBody cfg (clearBody cm uid) now2 uid =
      (⟨uid, "session_" ++ uid, [],
         .cons "conversation_id".data (.str (natDigits p3.1.id))
          (.cons "session_id".data (.str (natDigits p2.1.id))
            (.cons "message_count".data (.num p3.1.messageCount)
              (.cons "last_updated".data (.str (natDigits now2)) .nil)))⟩,
       setRedisCache
         (setLocalCache cfg { clearBody cm uid with db := .up p3.2 } now2 uid
           ⟨uid, "session_" ++ uid, [],
             .cons "conversation_id".data (.str (natDigits p3.1.id))
              (.cons "session_id".data (.str (natDigits p2.1.id))
                (.cons "message_count".data (.num p3.1.messageCount)
                  (.cons "last_updated".data (.str (natDigits now2)) .nil)))⟩) uid
         ⟨uid, "session_" ++ uid, [],
           .cons "conversation_id".data (.str (natDigits p3.1.id))
            (.cons "session_id".data (.str (natDigits p2.1.id))
              (.cons "message_count".data (.num p3.1.messageCount)
                (.cons "last_updated".data (.str (natDigits now2)) .nil)))⟩) := by
    rw [getContextBody, hchk]
    simp only [hredmiss, hload]
  refine ⟨_, _, by rw [get_context, hbody], rfl, rfl, p3.2, ?_, ?_, ?_, ?_, ?_⟩
  · rw [setRedisCache_db, setLocalCache_db]
  · intro u hu
    rw [hc3, hs3]
    exact hu5 u hu
  · intro s hs
    rw [hc4]
    apply hs5
    rw [hu3]
    exact hs
  · intro c hc
    apply hc5
    rw [hs2, hu2]
    exact hc
  · rw [hc2, hs1, hu1]

/-- A durable state with one user `u1`, its session, one conversation and
one stored message. -/
def dbC7 : Db :=
  ⟨[⟨0, "u1"⟩], [⟨1, 0, "session_u1"⟩], [⟨2, 1, none, 1, 10, 10⟩],
   [⟨3, 2, "user", "hello", 10, .null⟩], 4⟩

/-- A warm coordinator over `dbC7`: caches primed for `u1`. -/
def cmC7 : CM :=
  ⟨[("u1", ⟨"u1", "session_u1", [⟨"hello", "user", some 10, .null⟩], .nil⟩)],
   [("u1", 1000)], .up [("context:u1", "x")], .up dbC7⟩

/-- C7, witness: the amended statement at the concrete warm state. -/
theorem C7_clear_then_get_witness :
    ∃ cm1, clear_context cmC7 "u1" = .ok cm1 ∧
    ∃ ctx2 cm2, get_context ⟨20, 3600⟩ cm1 60 "u1" = .ok (ctx2, cm2) ∧
      ctx2.history = [] ∧
      ctx2.session_id = "session_" ++ "u1" ∧
      ∃ db2, cm2.db = .up db2 ∧
        (∀ u ∈ dbC7.users, u ∈ db2.users) ∧
        (∀ s ∈ dbC7.sessions, s ∈ db2.sessions) ∧
        (∀ c ∈ dbC7.convs, c ∈ db2.convs) ∧
        db2.msgs = dbC7.msgs :=
  C7_clear_then_get ⟨20, 3600⟩ cmC7 "u1" 60 dbC7 rfl
    (by intro m hm; simp [dbC7] at hm; subst hm; decide) (by decide)

/-- C7, counterexample: the claim says the post-clear `get_context` session
id is newly generated and distinct from the one in use before the clear,
but both are the deterministic `session_<userId>`: before the clear the
cached context carries `session_u1`, and after the clear the durable
rebuild returns `session_u1` again. -/
theorem C7_session_id_counterexample :
    (getContextBody ⟨20, 3600⟩ cmC7 50 "u1").1.session_id = "session_u1" ∧
    (getContextBody ⟨20, 3600⟩ (clearBody cmC7 "u1") 60 "u1").1.session_id = "session_u1" := by
  constructor
  · simp +decide [cmC7, dbC7, getContextBody, checkLocalCache, kvGet]
  · simp +decide [cmC7, dbC7, getContextBody, checkLocalCache, getFromRedisCache,
      setLocalCache, setRedisCache, loadFromDb, clearBody, kvGet, kvSet, kvErase,
      getOrCreateUser, getUserByUsername, createUser, getOrCreateSession,
      getSessionById, createSession, ctxGetOrCreateConversation,
      ctxRecentConversationQuery, getConversationMessages.eq_def, natDigits,
      digitChar, jSet]

/-! ## MemoryCoordinator and FallbackFileStore (`memory.py`, `MemoryManager`)

The per-session fallback files (`<storagePath>/<sessionId>.json`) are
modelled as a map from session id to the file's text; the JSON codec above
stands in for `json.dump`/`json.load` (the `indent=2` whitespace of the
writer is insignificant to the reader and not modelled). `ConversationEntry`
timestamps default to the current instant, as `__post_init__` does. -/

/-- `ConversationEntry` (`memory.py`): a stored turn. -/
structure CEntry where
  message : Msg
  intent : Option String
  response : Option String
  timestamp : Nat
  metadata : JObj
  deriving DecidableEq

/-- Memory-manager configuration fixed at construction. -/
structure MMConfig where
  usePostgres : Bool
  hasDb : Bool
  retentionDays : Nat
  deriving DecidableEq

/-- Mutable state of a `MemoryManager`. -/
structure MM where
  conversations : List (String × List CEntry)
  files : List (String × String)
  db : DbTier
  lastCleanup : Nat
  deriving DecidableEq

/-- An optional string as the JSON value Python would store. -/
def optStrToJv : Option String → Jv
  | none => .null
  | some s => .str s.data

/-- Read back an optional string field (typed restriction: only the values
this code writes, strings and `None`). -/
def jvToOptStr : Option Jv → Option String
  | some (.str s) => some (String.mk s)
  | _ => none

/-- `value or {}` for a JSON value. -/
def pyOrEmptyDict (v : Jv) : Jv := if pyTruthy v then v else .obj .nil

/-- Append to a JSON array (Python `list.append`). -/
def jarrAppend : JArr → Jv → JArr
  | .nil, v => .cons v .nil
  | .cons h t, v => .cons h (jarrAppend t v)

/-- Merge the entries of the second dict over the first
(`{..., **metadata}`). -/
def jObjUnion (base : JObj) : JObj → JObj
  | .nil => base
  | .cons k v t => jObjUnion (jSet base k v) t

/-- The `entry_data` dict written by `MemoryManager._save_to_local`; its
`message` sub-dict has exactly the shape of `_serialize_context`'s message
entries. -/
def entryToJv (e : CEntry) : Jv :=
  .obj (.cons "message".data (serializeMsg e.message)
    (.cons "intent".data (optStrToJv e.intent)
      (.cons "response".data (optStrToJv e.response)
        (.cons "timestamp".data (.str (natDigits e.timestamp))
          (.cons "metadata".data (.obj e.metadata) .nil)))))

/-- The message reconstruction in `_load_from_local`, which indexes the
required keys directly (`item['message']['content']`, …); a missing key or
ill-typed field models the raised exception. -/
def msgFromJvStrict (v : Jv) : Option Msg :=
  match v with
  | .obj fields =>
    match jGet fields "content", jGet fields "role",
        jGet fields "timestamp", jGet fields "metadata" with
    | some (.str content), some (.str role), some tsv, some md =>
      if roleValid (String.mk role) then
        if pyTruthy tsv then
          match tsv with
          | .str t => (parseTs t).map fun ts => ⟨String.mk content, String.mk role, some ts, md⟩
          | _ => none
        else some ⟨String.mk content, String.mk role, none, md⟩
      else none
    | _, _, _, _ => none
  | _ => none

/-- One item conversion of `_load_from_local`. -/
def entryFromJv (v : Jv) : Option CEntry :=
  match v with
  | .obj fields =>
    match jGet fields "message", jGet fields "timestamp" with
    | some msgv, some (.str tchars) =>
      (msgFromJvStrict msgv).bind fun msg =>
        (parseTs tchars).map fun ts =>
          ⟨msg, jvToOptStr (jGet fields "intent"), jvToOptStr (jGet fields "response"),
           ts,
           match jGet fields "metadata" with
           | some (.obj md) => md
           | _ => .nil⟩
    | _, _ => none
  | _ => none

/-- The item loop of `_load_from_local`; one bad item aborts the load. -/
def entriesFromJArr : JArr → Option (List CEntry)
  | .nil => some []
  | .cons v t => (entryFromJv v).bind fun e => (entriesFromJArr t).map (e :: ·)

/-- `MemoryManager._save_to_local`: read the session's file (or start an
empty array), append the entry, write back; a corrupt or non-array file
makes the operation raise, which the `except` swallows (nothing saved). -/
def saveToLocal (mm : MM) (sid : String) (e : CEntry) : MM :=
  match kvGet mm.files sid with
  | none =>
    { mm with files := kvSet mm.files sid (jdumps (.arr (.cons (entryToJv e) .nil))) }
  | some content =>
    match jloads content with
    | some (.arr items) =>
      { mm with files := kvSet mm.files sid (jdumps (.arr (jarrAppend items (entryToJv e)))) }
    | _ => mm

/-- `MemoryManager._load_from_local`: parse the session's file and convert
its items; any failure yields the empty history. The limit goes through
Python's `if limit:`, so a limit of 0 is no limit. -/
def loadFromLocal (mm : MM) (sid : String) (limit : Option Nat) : List CEntry :=
  match kvGet mm.files sid with
  | none => []
  | some content =>
    match jloads content with
    | some (.arr items) =>
      match entriesFromJArr items with
      | some entries =>
        match limit with
        | some l => if l ≠ 0 then pySliceLast l entries else entries
        | none => entries
      | none => []
    | _ => []

/-- `SELECT` of a stored message's timestamp during the file-store
retention sweep (`_cleanup_local`). -/
def itemTs (v : Jv) : Option Nat :=
  match v with
  | .obj fields =>
    match jGet fields "timestamp" with
    | some (.str t) => parseTs t
    | _ => none
  | _ => none

/-- The retention filter of `_cleanup_local` over one parsed file; `none`
when some item's timestamp is unreadable (that file is skipped). -/
def recentItems (cutoffOk : Nat → Bool) : JArr → Option JArr
  | .nil => some .nil
  | .cons v t =>
    (itemTs v).bind fun ts =>
      (recentItems cutoffOk t).map fun t' =>
        if cutoffOk ts then .cons v t' else t'

/-- `_cleanup_local` on one file: `some (some text)` rewrites the file,
`some none` deletes it, `none` leaves it unchanged (inner `except`). -/
def cleanupFile (cfg : MMConfig) (now : Nat) (content : String) :
    Option (Option String) :=
  match jloads content with
  | some (.arr items) =>
    match recentItems (fun ts => ts + cfg.retentionDays * 86400 > now) items with
    | some .nil => some none
    | some kept => some (some (jdumps (.arr kept)))
    | none => none
  | _ => none

/-- `MemoryManager.cleanup`: drop entries older than the retention window
from the in-process cache and the fallback files (`_cleanup_postgres`
deliberately deletes nothing). -/
def mmCleanup (cfg : MMConfig) (mm : MM) (now : Nat) : MM :=
  { mm with
      conversations :=
        ((mm.conversations.map fun p =>
          (p.1, p.2.filter fun e => e.timestamp + cfg.retentionDays * 86400 > now)).filter
            fun p => ¬ p.2.isEmpty),
      files := mm.files.foldr
        (fun p acc =>
          match cleanupFile cfg now p.2 with
          | some (some newContent) => (p.1, newContent) :: acc
          | some none => acc
          | none => (p.1, p.2) :: acc)
        [],
      lastCleanup := now }

/-- `MemoryManager._cleanup_if_needed`: hourly cadence. -/
def cleanupIfNeeded (cfg : MMConfig) (mm : MM) (now : Nat) : MM :=
  if now - mm.lastCleanup > 3600 then mmCleanup cfg mm now else mm

/-- `get_user_conversations` (`DatabaseManager`): conversations joined to
the user's sessions, most recently updated first, limited. -/
def getUserConversations (db : Db) (userId : Nat) (limit : Option Nat) :
    List ConvRow :=
  let joined := db.convs.filter fun c =>
    (db.sessions.find? fun s => s.id == c.sessionId).elim false fun s => s.userId == userId
  let sorted := joined.mergeSort (fun a b => b.updatedAt ≤ a.updatedAt)
  match limit with
  | some l => if l ≠ 0 then sorted.take l else sorted
  | none => sorted

/-- The `ConversationEntry` built from a durable message row in
`_load_from_postgres`; the entry timestamp defaults to the current instant
via `__post_init__`. -/
def mkEntryFromRow (now : Nat) (r : MsgRow) : CEntry :=
  let md := r.metadata
  ⟨⟨r.content, r.role, some r.timestamp, pyOrEmptyDict md⟩,
   (match md with
     | .obj f => jvToOptStr (jGet f "intent")
     | _ => none),
   (match md with
     | .obj f => jvToOptStr (jGet f "response")
     | _ => none),
   now,
   match pyOrEmptyDict md with
   | .obj f => f
   | _ => .nil⟩

/-- `MemoryManager._load_from_postgres` (with its get-or-create side
effect on the user table). -/
def loadFromPostgres (mm : MM) (now : Nat) (sid : String) (limit : Option Nat) :
    List CEntry × DbTier :=
  match mm.db with
  | .down => ([], .down)
  | .up db =>
    let p1 := getOrCreateUser db sid
    match getSessionById p1.2 sid with
    | none => ([], .up p1.2)
    | some _ =>
      match getUserConversations p1.2 p1.1.id (some 1) with
      | [] => ([], .up p1.2)
      | conv :: _ =>
        ((getConversationMessages p1.2 conv.id limit).map (mkEntryFromRow now), .up p1.2)

/-- `MemoryManager._save_to_postgres`: get-or-create user, session and a
recent conversation (the `memory.py` variant), then insert the message
with the composed metadata dict. -/
def saveToPostgres (mm : MM) (now : Nat) (sid : String) (e : CEntry) : MM :=
  match mm.db with
  | .down => mm
  | .up db =>
    let p1 := getOrCreateUser db sid
    let p2 := getOrCreateSession p1.2 p1.1.id sid
    let p3 := memGetOrCreateConversation p2.2 p2.1.id now
    let md : Jv := .obj (jObjUnion
      (.cons "intent".data (optStrToJv e.intent)
        (.cons "response".data (optStrToJv e.response)
          (.cons "timestamp".data (.str (natDigits e.timestamp)) .nil)))
      e.metadata)
    let p4 := dbAddMessage p3.2 now p3.1.id e.message.role e.message.content md
    { mm with db := .up p4.2 }

/-- `MemoryManager.add_message`: append to the per-session cache, then
write durably (PostgreSQL when enabled and configured, else the fallback
file), then the periodic cleanup check. -/
def add_message (cfg : MMConfig) (mm : MM) (now : Nat) (sid : String) (msg : Msg)
    (intent response : Option String) (metadata : Option JObj) : MM :=
  let entry : CEntry := ⟨msg, intent, response, now, metadata.getD .nil⟩
  let cache' := match kvGet mm.conversations sid with
    | none => kvSet mm.conversations sid [entry]
    | some l => kvSet mm.conversations sid (l ++ [entry])
  let mm1 := { mm with conversations := cache' }
  let mm2 :=
    if cfg.usePostgres && cfg.hasDb then saveToPostgres mm1 now sid entry
    else saveToLocal mm1 sid entry
  cleanupIfNeeded cfg mm2 now

/-- `MemoryManager.get_conversation_history`: cache first, then the active
durable backend, repopulating the cache. -/
def get_conversation_history (cfg : MMConfig) (mm : MM) (now : Nat) (sid : String)
    (limit : Option Nat) : List CEntry × MM :=
  match kvGet mm.conversations sid with
  | some history =>
    ((match limit with
      | some l => if l ≠ 0 then pySliceLast l history else history
      | none => history), mm)
  | none =>
    if cfg.usePostgres && cfg.hasDb then
      let p := loadFromPostgres mm now sid limit
      (p.1, { mm with conversations := kvSet mm.conversations sid p.1, db := p.2 })
    else
      let entries := loadFromLocal mm sid limit
      (entries, { mm with conversations := kvSet mm.conversations sid entries })

theorem jvToOptStr_optStrToJv (o : Option String) :
    jvToOptStr (some (optStrToJv o)) = o := by
  cases o <;> rfl

theorem msgFromJvStrict_serializeMsg (m : Msg) (hrole : roleValid m.role = true) :
    msgFromJvStrict (serializeMsg m) = some m := by
  obtain ⟨⟨cdata⟩, ⟨rdata⟩, tsf, md⟩ := m
  cases tsf with
  | none =>
    simp +decide [serializeMsg, msgFromJvStrict, jGet, pyTruthy] at hrole ⊢
    simp [hrole]
  | some t =>
    have hne := natDigits_ne_nil t
    simp +decide [serializeMsg, msgFromJvStrict, jGet, pyTruthy] at hrole ⊢
    simp [hrole, hne, parseTs_natDigits]

theorem entryFromJv_entryToJv (e : CEntry) (hrole : roleValid e.message.role = true) :
    entryFromJv (entryToJv e) = some e := by
  obtain ⟨msg, intent, response, ts, md⟩ := e
  have hmsg := msgFromJvStrict_serializeMsg msg hrole
  simp +decide [entryToJv, entryFromJv, jGet, hmsg, parseTs_natDigits,
    jvToOptStr_optStrToJv]

/-- C9: with the persistent store disabled, `add_message("s1", m)` writes
the entry to the per-session fallback JSON file, and on a fresh manager
instance with an empty in-process cache over the same files,
`get_conversation_history("s1")` returns a list containing an entry whose
message equals `m`, read back from that file. -/
theorem C9_fallback_file_roundtrip (cfg : MMConfig) (mm : MM) (now : Nat)
    (m : Msg) (intent response : Option String) (md : Option JObj)
    (hup : cfg.usePostgres = false)
    (hfile : kvGet mm.files "s1" = none)
    (hrole : roleValid m.role = true)
    (hclean : ¬ now - mm.lastCleanup > 3600) :
    kvGet (add_message cfg mm now "s1" m intent response md).files "s1"
      = some (jdumps (.arr (.cons (entryToJv ⟨m, intent, response, now, md.getD .nil⟩) .nil))) ∧
    ∀ mmFresh : MM,
      mmFresh.conversations = [] →
      mmFresh.files = (add_message cfg mm now "s1" m intent response md).files →
      ∃ e ∈ (get_conversation_history cfg mmFresh now "s1" none).1, e.message = m := by
  have hfiles : (add_message cfg mm now "s1" m intent response md).files
      = kvSet mm.files "s1"
          (jdumps (.arr (.cons (entryToJv ⟨m, intent, response, now, md.getD .nil⟩) .nil))) := by
    rw [add_message]
    simp only [hup, Bool.false_and, if_false, Bool.false_eq_true]
    simp [saveToLocal, hfile, cleanupIfNeeded, hclean]
  refine ⟨by rw [hfiles]; exact kvGet_kvSet _ _ _, ?_⟩
  intro mmFresh hconv hfiles2
  have hload : loadFromLocal mmFresh "s1" none
      = [⟨m, intent, response, now, md.getD .nil⟩] := by
    have hent := entryFromJv_entryToJv ⟨m, intent, response, now, md.getD .nil⟩ hrole
    rw [loadFromLocal, hfiles2, hfiles, kvGet_kvSet]
    simp [jloads_jdumps, entriesFromJArr, hent]
  rw [get_conversation_history, hconv]
  simp only [kvGet, hup, Bool.false_and, if_false, Bool.false_eq_true, hload]
  refine ⟨⟨m, intent, response, now, md.getD .nil⟩, ?_, rfl⟩
  simp

/-- C9, witness: the scenario evaluated at a concrete cold manager and a
concrete message. -/
theorem C9_fallback_file_roundtrip_witness :
    kvGet (add_message ⟨false, false, 30⟩ ⟨[], [], .down, 0⟩ 0 "s1"
        ⟨"hello", "user", some 7, .null⟩ none none none).files "s1"
      = some (jdumps (.arr (.cons (entryToJv
          ⟨⟨"hello", "user", some 7, .null⟩, none, none, 0, Option.getD none .nil⟩) .nil))) ∧
    ∀ mmFresh : MM,
      mmFresh.conversations = [] →
      mmFresh.files = (add_message ⟨false, false, 30⟩ ⟨[], [], .down, 0⟩ 0 "s1"
        ⟨"hello", "user", some 7, .null⟩ none none none).files →
      ∃ e ∈ (get_conversation_history ⟨false, false, 30⟩ mmFresh 0 "s1" none).1,
        e.message = ⟨"hello", "user", some 7, .null⟩ :=
  C9_fallback_file_roundtrip ⟨false, false, 30⟩ ⟨[], [], .down, 0⟩ 0
    ⟨"hello", "user", some 7, .null⟩ none none none rfl rfl (by decide) (by decide)

end RoxaneOS
